import Mathlib

set_option maxRecDepth 100000

/-
  Verification development for the team-reassignment core of the repository:
  a shallow embedding, in Lean 4, of the scoring, seeding, snake-draft
  partition building and swap-based balance optimization found in
  src/analysis/metrics.ts (MetricsCalculator), src/analysis/balancer.ts
  (TeamBalancer), src/assignment/shuffler.ts (TeamShuffler),
  src/assignment/deterministic.ts (DeterministicRandom, SeedManager) and
  src/data/validator.ts (DataValidator).

  Modelling conventions:
  * JavaScript floating-point numbers are embedded as exact rationals (ℚ);
    machine 32-bit integer operations of the seed hash are embedded as Int
    arithmetic with explicit reduction into [-2^31, 2^31).
  * The third-party seeded PRNG (the seedrandom npm package) is not part of
    the repository; every definition that consumes it is parametrized by an
    abstract stream g : ℕ → ℚ of successive outputs of DeterministicRandom.random,
    and assignTeams is parametrized by a family G : Int → ℕ → ℚ giving the
    stream obtained when the generator is constructed from a given seed.
    Theorems about shuffle-dependent data quantify over the stream.
  * Array.prototype.sort with a comparator is embedded as stableSort, a
    structural stable insertion sort with the corresponding boolean order
    (JavaScript sort is stable, and a stable sort under a total preorder
    comparator has a unique result).
  * Thrown exceptions are embedded as Option results (none = throw).
-/

namespace TeamReassign

/-- Embedding of the Player record (src/types.ts); only the fields read by the
scoring and assignment pipeline are carried: the id and the four metrics used
by MetricsCalculator.normalizeMetrics. -/
structure Player where
  player_id : Int
  historical_event_engagements : ℚ
  days_active_last_30 : ℚ
  current_total_points : ℚ
  current_streak_value : ℚ
deriving DecidableEq, Repr

/-- Embedding of PlayerWithScore (src/types.ts): a Player plus its
composite_score. -/
structure PlayerWithScore where
  player : Player
  composite_score : ℚ
deriving DecidableEq, Repr

/-- Embedding of Team (src/types.ts). -/
structure Team where
  team_id : ℕ
  players : List PlayerWithScore
  total_score : ℚ
  average_score : ℚ
  size : ℕ
deriving DecidableEq, Repr

/-- Embedding of the result record returned by TeamShuffler.assignTeams
(src/types.ts AssignmentResult); the fairness_stats display aggregate (which
involves a square root) is not carried, no claim refers to it. -/
structure AssignmentResult where
  teams : List Team
  total_players : ℕ
  target_teams : ℕ
  seed : Int
deriving DecidableEq, Repr

/-- Embedding of the weight record BalanceMetrics (src/types.ts). -/
structure BalanceMetrics where
  engagement_weight : ℚ
  activity_weight : ℚ
  points_weight : ℚ
  streak_weight : ℚ
deriving DecidableEq, Repr

/-- Normalized per-attribute values of one player, as computed by
MetricsCalculator.normalizeMetrics. -/
structure NormMetrics where
  engagement : ℚ
  activity : ℚ
  points : ℚ
  streak : ℚ
deriving DecidableEq, Repr

/-- One insertion step of the stable sort: place a before the first element
it compares at-or-before. -/
def orderedInsertB {α : Type} (le : α → α → Bool) (a : α) :
    List α → List α
  | [] => [a]
  | b :: l => if le a b then a :: b :: l else b :: orderedInsertB le a l

/-- Stable sort with a boolean comparator, embedding JavaScript's stable
Array.prototype.sort. -/
def stableSort {α : Type} (le : α → α → Bool) : List α → List α
  | [] => []
  | a :: l => orderedInsertB le a (stableSort le l)

namespace MetricsCalculator

/-- DEFAULT_WEIGHTS of MetricsCalculator (0.4, 0.3, 0.2, 0.1). -/
def DEFAULT_WEIGHTS : BalanceMetrics := ⟨2/5, 3/10, 1/5, 1/10⟩

/-- Math.min over a spread list, as used on the (nonempty) metric batches. -/
def listMin : List ℚ → ℚ
  | [] => 0
  | x :: xs => xs.foldl min x

/-- Math.max over a spread list, as used on the (nonempty) metric batches. -/
def listMax : List ℚ → ℚ
  | [] => 0
  | x :: xs => xs.foldl max x

/-- MetricsCalculator.normalize: map a value into the 0-1 scale relative to a
batch range, with the 0.5 fallback when the range is degenerate. -/
def normalize (value : ℚ) (rmin rmax : ℚ) : ℚ :=
  if rmax = rmin then 1/2 else (value - rmin) / (rmax - rmin)

/-- MetricsCalculator.normalizeMetrics: batch-relative min-max normalization of
the four metrics; an empty batch yields an empty result. -/
def normalizeMetrics (players : List Player) : List NormMetrics :=
  match players with
  | [] => []
  | _ :: _ =>
    let eMin := listMin (players.map (·.historical_event_engagements))
    let eMax := listMax (players.map (·.historical_event_engagements))
    let aMin := listMin (players.map (·.days_active_last_30))
    let aMax := listMax (players.map (·.days_active_last_30))
    let pMin := listMin (players.map (·.current_total_points))
    let pMax := listMax (players.map (·.current_total_points))
    let sMin := listMin (players.map (·.current_streak_value))
    let sMax := listMax (players.map (·.current_streak_value))
    players.map fun p =>
      ⟨normalize p.historical_event_engagements eMin eMax,
       normalize p.days_active_last_30 aMin aMax,
       normalize p.current_total_points pMin pMax,
       normalize p.current_streak_value sMin sMax⟩

/-- MetricsCalculator.calculateCompositeScore: weighted sum of the normalized
metrics. -/
def calculateCompositeScore (n : NormMetrics) (w : BalanceMetrics) : ℚ :=
  n.engagement * w.engagement_weight + n.activity * w.activity_weight +
    n.points * w.points_weight + n.streak * w.streak_weight

/-- MetricsCalculator.calculatePlayerScores: attach the composite score to each
player of the batch. -/
def calculatePlayerScores (players : List Player) (w : BalanceMetrics) :
    List PlayerWithScore :=
  List.zipWith (fun p n => ⟨p, calculateCompositeScore n w⟩) players
    (normalizeMetrics players)

/-- Boolean order of the rankPlayersByScore comparator: composite score
descending, player_id ascending as the tie-break. -/
def rankLE (a b : PlayerWithScore) : Bool :=
  if a.composite_score = b.composite_score then
    decide (a.player.player_id ≤ b.player.player_id)
  else decide (b.composite_score < a.composite_score)

/-- MetricsCalculator.rankPlayersByScore: stable sort by composite score
descending, then player_id ascending. -/
def rankPlayersByScore (playersWithScores : List PlayerWithScore) :
    List PlayerWithScore :=
  stableSort rankLE playersWithScores

/-- Per-team mean composite scores of MetricsCalculator.calculateTeamBalance
(0 for an empty team). -/
def teamMeanScores (teams : List Team) : List ℚ :=
  teams.map fun t =>
    if t.players.length = 0 then 0
    else (t.players.map (·.composite_score)).sum / t.players.length

/-- Population variance of the team mean scores, as computed by
MetricsCalculator.calculateTeamBalance. -/
def scoreVariance (teams : List Team) : ℚ :=
  let ms := teamMeanScores teams
  let overallMean := ms.sum / ms.length
  (ms.map fun m => (m - overallMean) ^ 2).sum / ms.length

/-- balance_coefficient of MetricsCalculator.calculateTeamBalance:
max(0, 1 - variance / 0.25). -/
def balanceCoefficient (teams : List Team) : ℚ :=
  max 0 (1 - scoreVariance teams / (1/4))

/-- Modelled from the spec: MetricsCalculator.calculateTeamStats is called from
TeamBalancer (balancer.ts lines 47, 210, 263) but its definition is not among
the provided sources; spec section 4.4 step 5 prescribes the per-partition
aggregates (size, totalScore, averageScore), and TeamShuffler carries an
identically-shaped private calculateTeamStats (shuffler.ts lines 150-163),
which this definition follows: an empty team gets zero aggregates, otherwise
total is the sum of composite scores, average is total divided by the member
count, and size is the member count. -/
def calculateTeamStats (team : Team) : Team :=
  if team.players.length = 0 then
    Team.mk team.team_id team.players 0 0 0
  else
    let total := (team.players.map (·.composite_score)).sum
    Team.mk team.team_id team.players total (total / team.players.length)
      team.players.length

end MetricsCalculator

namespace TeamBalancer

open MetricsCalculator

/-- Mutable state of the snake-draft loop of TeamBalancer.createBalancedTeams:
the per-team member lists, the current team index and the walking direction. -/
structure SnakeState where
  teams : List (List PlayerWithScore)
  cur : Int
  dir : Int
deriving Repr

/-- One iteration of the snake-draft forEach of createBalancedTeams: push the
player onto the current team, advance, and clamp-and-reverse at both ends. -/
def snakeStep (targetTeams : ℕ) (s : SnakeState) (p : PlayerWithScore) :
    SnakeState :=
  let teams := List.modify (fun g => g ++ [p]) s.cur.toNat s.teams
  let c := s.cur + s.dir
  if (targetTeams : Int) ≤ c then ⟨teams, (targetTeams : Int) - 1, -1⟩
  else if c < 0 then ⟨teams, 0, 1⟩
  else ⟨teams, c, s.dir⟩

/-- The snake-draft fold of createBalancedTeams over the ranked players,
starting at team 0 moving forward. -/
def snakeFold (targetTeams : ℕ) (rankedPlayers : List PlayerWithScore) :
    SnakeState :=
  rankedPlayers.foldl (snakeStep targetTeams)
    ⟨List.replicate targetTeams [], 0, 1⟩

/-- TeamBalancer.createBalancedTeams: rank by composite score, distribute in a
snake pattern over targetTeams teams (team_id i+1 for the i-th), then compute
the per-team aggregates. -/
def createBalancedTeams (playersWithScores : List PlayerWithScore)
    (targetTeams : ℕ) : List Team :=
  let final := snakeFold targetTeams (rankPlayersByScore playersWithScores)
  List.zipWith (fun i g => calculateTeamStats (Team.mk (i + 1) g 0 0 0))
    (List.range targetTeams) final.teams

/-- Fallback element for the out-of-range team accesses of swapPlayers; the
search of attemptPlayerSwaps only produces in-range indices, so it is never
the value actually swapped. -/
def dummyTeam : Team := ⟨0, [], 0, 0, 0⟩

/-- Fallback element for the out-of-range member accesses of swapPlayers;
never the value actually swapped. -/
def dummyPlayer : PlayerWithScore := ⟨⟨0, 0, 0, 0, 0⟩, 0⟩

/-- TeamBalancer.swapPlayers: exchange the member at position playerA of team
teamA with the member at position playerB of team teamB, then recompute every
team's aggregates. The guards make the out-of-range accesses (never reached
from attemptPlayerSwaps, whose indices come from ranges) harmless. -/
def swapPlayers (teams : List Team) (teamA playerA teamB playerB : ℕ) :
    List Team :=
  if teamA < teams.length ∧ teamB < teams.length then
    let tA := teams.getD teamA dummyTeam
    let tB := teams.getD teamB dummyTeam
    if playerA < tA.players.length ∧ playerB < tB.players.length then
      let pA := tA.players.getD playerA dummyPlayer
      let pB := tB.players.getD playerB dummyPlayer
      let step1 := teams.set teamA
        (Team.mk tA.team_id (tA.players.set playerA pB) tA.total_score
          tA.average_score tA.size)
      let step2 := step1.set teamB
        (Team.mk tB.team_id (tB.players.set playerB pA) tB.total_score
          tB.average_score tB.size)
      step2.map calculateTeamStats
    else teams.map calculateTeamStats
  else teams.map calculateTeamStats

/-- The nested first-improvement search of TeamBalancer.attemptPlayerSwaps:
teams i, teams j with j > i, member positions pa and pb in ascending order;
the first swap whose balance coefficient strictly exceeds the current one is
returned as an index quadruple. -/
def findImprovingSwap (teams : List Team) : Option (ℕ × ℕ × ℕ × ℕ) :=
  let currentBalance := balanceCoefficient teams
  (List.range teams.length).findSome? fun i =>
    (List.range teams.length).findSome? fun j =>
      if j ≤ i then none
      else
        (List.range (teams.getD i dummyTeam).players.length).findSome? fun pa =>
          (List.range (teams.getD j dummyTeam).players.length).findSome? fun pb =>
            if currentBalance
                < balanceCoefficient (swapPlayers teams i pa j pb) then
              some (i, pa, j, pb)
            else none

/-- TeamBalancer.attemptPlayerSwaps: apply the first improving swap if one
exists. -/
def attemptPlayerSwaps (teams : List Team) : Option (List Team) :=
  (findImprovingSwap teams).map fun q =>
    swapPlayers teams q.1 q.2.1 q.2.2.1 q.2.2.2

/-- Result record of TeamBalancer.optimizeTeamBalance. -/
structure OptimizationResult where
  optimized : List Team
  iterations : ℕ
  improvement : ℚ
deriving Repr

/-- The iteration loop of TeamBalancer.optimizeTeamBalance: on each round count
the iteration, attempt a first-improving swap, track the best-seen team state
by balance coefficient, and stop early when no improving swap exists. -/
def optimizeLoop : ℕ → List Team → List Team → ℚ → ℕ → List Team × ℚ × ℕ
  | 0, _, best, bestCoeff, iterations => (best, bestCoeff, iterations)
  | Nat.succ fuel2, current, best, bestCoeff, iterations =>
    match attemptPlayerSwaps current with
    | none => (best, bestCoeff, iterations + 1)
    | some improved =>
      let newCoeff := balanceCoefficient improved
      if bestCoeff < newCoeff then
        optimizeLoop fuel2 improved improved newCoeff (iterations + 1)
      else
        optimizeLoop fuel2 improved best bestCoeff (iterations + 1)

/-- TeamBalancer.optimizeTeamBalance: run up to maxIterations improvement
rounds, return the best-seen teams with recomputed aggregates, the number of
iterations run, and the improvement of the balance coefficient over the
input. -/
def optimizeTeamBalance (teams : List Team) (maxIterations : ℕ) :
    OptimizationResult :=
  let initialCoeff := balanceCoefficient teams
  let r := optimizeLoop maxIterations teams teams initialCoeff 0
  ⟨r.1.map calculateTeamStats, r.2.2, r.2.1 - initialCoeff⟩

end TeamBalancer

namespace DeterministicRandom

/-- DeterministicRandom.randomInt over an abstract stream g of random() outputs:
floor(random() * (max - min + 1)) + min, consuming the value at position t. -/
def randomInt (g : ℕ → ℚ) (t : ℕ) (lo hi : Int) : Int :=
  ⌊g t * ((hi : ℚ) - (lo : ℚ) + 1)⌋ + lo

/-- The simultaneous element exchange of the Fisher-Yates body; identity when
either index is out of range (never reached for an in-range stream). -/
def listSwap {α : Type} (l : List α) (i j : ℕ) : List α :=
  match l[i]?, l[j]? with
  | some a, some b => (l.set i b).set j a
  | _, _ => l

/-- The Fisher-Yates walk of DeterministicRandom.shuffle: indices descend from
i to 1, each consuming one stream value; returns the permuted list and the
next unread stream position. -/
def fisherYatesAux {α : Type} (g : ℕ → ℚ) : ℕ → ℕ → List α → List α × ℕ
  | t, 0, arr => (arr, t)
  | t, Nat.succ i2, arr =>
    let j := (randomInt g t 0 (Nat.succ i2 : ℕ)).toNat
    fisherYatesAux g (t + 1) i2 (listSwap arr (Nat.succ i2) j)

/-- DeterministicRandom.shuffle on an abstract stream, threading the stream
position. -/
def shuffle {α : Type} (g : ℕ → ℚ) (t : ℕ) (arr : List α) : List α × ℕ :=
  fisherYatesAux g t (arr.length - 1) arr

end DeterministicRandom

namespace SeedManager

/-- Reduction of an integer into the signed 32-bit range [-2^31, 2^31), the
effect of the JavaScript bitwise operations used by generateDataSeed
(2147483648 = 2^31, 4294967296 = 2^32). -/
def toInt32 (x : Int) : Int := (x + 2147483648) % 4294967296 - 2147483648

/-- Reduction of an integer into the unsigned 32-bit range [0, 2^32), the
effect of the JavaScript unsigned shift by zero used by combineSeed. -/
def asUInt32 (x : Int) : ℕ := (x % 4294967296).toNat

/-- The ascending numeric sort applied to the player ids by
generateDataSeed. -/
def sortIdsAscending (playerIds : List Int) : List Int :=
  stableSort (fun a b => decide (a ≤ b)) playerIds

/-- SeedManager.generateDataSeed: sort the ids ascending, fold them through
hash = ((hash << 5) - hash + id) with each bitwise step reduced to signed
32 bits, and return the absolute value. -/
def generateDataSeed (playerIds : List Int) : Int :=
  (((sortIdsAscending playerIds).foldl
    (fun hash id => toInt32 (toInt32 (hash * 32) - hash + id)) 0).natAbs : ℕ)

/-- SeedManager.combineSeed: the data seed itself when no user seed is given,
otherwise the 32-bit XOR of the two seeds forced unsigned. -/
def combineSeed (userSeed : Option Int) (dataSeed : Int) : Int :=
  match userSeed with
  | none => dataSeed
  | some s => ((asUInt32 s ^^^ asUInt32 dataSeed : ℕ) : Int)

/-- The data-seed formula as worded by the spec (section 4.3): sort the ids
ascending, fold hash = ((hash << 5) - hash + id) mod 2^32, taking the absolute
value at the end. The shift by 5 is multiplication by 32, and mod 2^32 is read
as reduction of the 32-bit accumulator, i.e. into the signed range - the
reading under which the final absolute value has effect. -/
def specRollingHashSeed (playerIds : List Int) : Int :=
  (((sortIdsAscending playerIds).foldl
    (fun hash id => toInt32 (hash * 32 - hash + id)) 0).natAbs : ℕ)

end SeedManager

namespace TeamShuffler

open MetricsCalculator TeamBalancer DeterministicRandom SeedManager

/-- Boolean order of the groupPlayersByScore comparator: composite score
descending, stable on ties. -/
def scoreSortLE (a b : PlayerWithScore) : Bool :=
  decide (b.composite_score ≤ a.composite_score)

/-- One iteration of the grouping forEach of TeamShuffler.groupPlayersByScore:
extend the current group while the score stays within the threshold of the
group's first member, otherwise flush it and start a new group. -/
def groupStep (threshold : ℚ)
    (acc : List (List PlayerWithScore) × List PlayerWithScore)
    (p : PlayerWithScore) :
    List (List PlayerWithScore) × List PlayerWithScore :=
  match acc.2 with
  | [] => (acc.1, [p])
  | c0 :: _ =>
    if |c0.composite_score - p.composite_score| ≤ threshold then
      (acc.1, acc.2 ++ [p])
    else (acc.1 ++ [acc.2], [p])

/-- TeamShuffler.groupPlayersByScore: sort by score descending, then group
consecutive players whose scores are within the threshold of the group's first
member; the trailing group is kept if nonempty. -/
def groupPlayersByScore (players : List PlayerWithScore) (threshold : ℚ) :
    List (List PlayerWithScore) :=
  let sorted := stableSort scoreSortLE players
  let acc := sorted.foldl (groupStep threshold) ([], [])
  if acc.2.isEmpty then acc.1 else acc.1 ++ [acc.2]

/-- TeamShuffler.deterministicPreShuffle: group players by similar score with
the 0.01 threshold, shuffle each group with the seeded generator (its state
threaded across groups), and flatten back. -/
def deterministicPreShuffle (g : ℕ → ℚ) (players : List PlayerWithScore) :
    List PlayerWithScore :=
  let groups := groupPlayersByScore players (1/100)
  (groups.foldl
    (fun (acc : List (List PlayerWithScore) × ℕ) grp =>
      let r := shuffle g acc.2 grp
      (acc.1 ++ [r.1], r.2))
    ([], 0)).1.flatten

/-- TeamShuffler.createInitialAssignment: pre-shuffle to break ties, then snake
draft. -/
def createInitialAssignment (g : ℕ → ℚ) (playersWithScores : List PlayerWithScore)
    (targetTeams : ℕ) : List Team :=
  createBalancedTeams (deterministicPreShuffle g playersWithScores) targetTeams

/-- TeamShuffler.assignTeams: reject an empty player list, derive the effective
seed from the data and the optional caller seed, score the players, build the
initial snake-draft assignment using the stream of the seeded generator, and
optionally run the balance optimizer (default budget 100). G maps a seed to
the output stream of the generator constructed from it. -/
def assignTeams (G : Int → ℕ → ℚ) (seed : Option Int) (players : List Player)
    (targetTeams : ℕ) (optimizeBalance : Bool) : Option AssignmentResult :=
  if players.isEmpty then none
  else
    let dataSeed := generateDataSeed (players.map (·.player_id))
    let finalSeed := combineSeed seed dataSeed
    let playersWithScores := calculatePlayerScores players DEFAULT_WEIGHTS
    let initial := createInitialAssignment (G finalSeed) playersWithScores targetTeams
    let teams :=
      if optimizeBalance then (optimizeTeamBalance initial 100).optimized
      else initial
    some ⟨teams, players.length, targetTeams, finalSeed⟩

/-- Per-team lists of member player ids, the membership view compared by the
determinism and seed-sensitivity claims. -/
def teamMembership (r : AssignmentResult) : List (List Int) :=
  r.teams.map fun t => t.players.map fun p => p.player.player_id

end TeamShuffler

namespace DataValidator

/-- DataValidator.validateTeamConstraints as a predicate: true exactly when the
source function throws InvalidTeamConstraintsError, following its four checks
in order (fewer than 2 teams; more teams than players; fewer than 2 players
per team; expected size spread above 1, with ceil and floor of the average
team size). -/
def validateTeamConstraintsThrows (totalPlayers targetTeams : ℕ) : Bool :=
  if targetTeams < 2 then true
  else if targetTeams > totalPlayers then true
  else if totalPlayers < targetTeams * 2 then true
  else if (totalPlayers + targetTeams - 1) / targetTeams
      - totalPlayers / targetTeams > 1 then true
  else false

end DataValidator

open MetricsCalculator TeamBalancer TeamShuffler DeterministicRandom
open SeedManager DataValidator

/-- Closed form of the team index visited by the m-th snake-draft step for k
teams: walking forward on even rounds and backward on odd rounds. -/
def snakeIndex (k m : ℕ) : ℕ :=
  if (m / k) % 2 = 0 then m % k else k - 1 - m % k

/-- Closed form of the snake-draft direction before the m-th step. -/
def snakeDirInt (k m : ℕ) : Int :=
  if (m / k) % 2 = 0 then 1 else -1

/-- Closed form of the number of members team i holds after n snake-draft
steps over k teams. -/
def snakeCount (k n i : ℕ) : ℕ :=
  n / k +
    (if (n / k) % 2 = 0 then (if i < n % k then 1 else 0)
     else (if k - n % k ≤ i then 1 else 0))

/-- Multiset of all elements of a list of lists. -/
def multisetOfLists {α : Type} (T : List (List α)) : Multiset α :=
  (T.map Multiset.ofList).sum

/-- Multiset of all scored players held by a team list. -/
def multisetOfTeams (teams : List Team) : Multiset PlayerWithScore :=
  (teams.map (fun t => Multiset.ofList t.players)).sum

/-- Multiset of the underlying players held by a team list, for comparison
with the input batch. -/
def playersMultiset (teams : List Team) : Multiset Player :=
  (multisetOfTeams teams).map PlayerWithScore.player

/-- A player whose four metrics all equal 5, used by the concrete spec
scenarios. -/
def samplePlayer (i : Int) : Player := ⟨i, 5, 5, 5, 5⟩

/-- The spec scenario batch of four entities with identical attributes (all
composite scores equal). -/
def fourEqualPlayers : List Player :=
  [samplePlayer 1, samplePlayer 2, samplePlayer 3, samplePlayer 4]

/-- A degenerate generator-stream family whose random() always yields the same
value, used to instantiate stream-polymorphic theorems at a concrete input. -/
def constantStream (q : ℚ) : Int → ℕ → ℚ := fun _ _ => q

/-- The strict order underlying the rank comparator: score strictly higher, or
equal score and strictly smaller player id. On batches with distinct ids it is
a strict total order, which makes the ranked order canonical. -/
def rankRel (a b : PlayerWithScore) : Prop :=
  b.composite_score < a.composite_score ∨
    (a.composite_score = b.composite_score
      ∧ a.player.player_id < b.player.player_id)

/-- Inserting an element yields a permutation of consing it. -/
theorem orderedInsertB_perm {α : Type} (le : α → α → Bool) (a : α)
    (l : List α) : (orderedInsertB le a l).Perm (a :: l) := by
  induction l with
  | nil => exact List.Perm.refl _
  | cons b l2 ih =>
    unfold orderedInsertB
    by_cases h : le a b = true
    · rw [if_pos h]
    · rw [if_neg h]
      exact (ih.cons b).trans (List.Perm.swap a b l2)

/-- The stable sort permutes its input. -/
theorem stableSort_perm {α : Type} (le : α → α → Bool) (l : List α) :
    (stableSort le l).Perm l := by
  induction l with
  | nil => exact List.Perm.refl _
  | cons a l2 ih =>
    exact (orderedInsertB_perm le a (stableSort le l2)).trans (ih.cons a)

/-- Inserting into a list sorted by a transitive total comparator keeps it
sorted. -/
theorem orderedInsertB_pairwise {α : Type} (le : α → α → Bool)
    (htrans : ∀ a b c, le a b = true → le b c = true → le a c = true)
    (htot : ∀ a b, (le a b || le b a) = true)
    (a : α) (l : List α)
    (hl : l.Pairwise (fun x y => le x y = true)) :
    (orderedInsertB le a l).Pairwise (fun x y => le x y = true) := by
  induction l with
  | nil => simp [orderedInsertB]
  | cons b l2 ih =>
    unfold orderedInsertB
    rcases List.pairwise_cons.mp hl with ⟨hb, hl2⟩
    by_cases h : le a b = true
    · rw [if_pos h]
      refine List.Pairwise.cons ?_ hl
      intro x hx
      rcases List.mem_cons.mp hx with rfl | hx2
      · exact h
      · exact htrans a b x h (hb x hx2)
    · rw [if_neg h]
      refine List.Pairwise.cons ?_ (ih hl2)
      intro x hx
      have hba : le b a = true := by
        have h3 := htot a b
        rw [Bool.or_eq_true] at h3
        rcases h3 with h1 | h1
        · exact absurd h1 h
        · exact h1
      rcases List.mem_cons.mp ((orderedInsertB_perm le a l2).mem_iff.mp hx)
        with rfl | hx2
      · exact hba
      · exact hb x hx2

/-- The stable sort under a transitive total comparator is sorted. -/
theorem stableSort_pairwise {α : Type} (le : α → α → Bool)
    (htrans : ∀ a b c, le a b = true → le b c = true → le a c = true)
    (htot : ∀ a b, (le a b || le b a) = true)
    (l : List α) :
    (stableSort le l).Pairwise (fun x y => le x y = true) := by
  induction l with
  | nil => simp [stableSort]
  | cons a l2 ih => exact orderedInsertB_pairwise le htrans htot a _ ih

/-- Reducing the first summand of the hash step to signed 32 bits before the
remaining arithmetic does not change the reduced result. -/
theorem toInt32_absorb_left (x y z : Int) :
    SeedManager.toInt32 (SeedManager.toInt32 x - y + z)
      = SeedManager.toInt32 (x - y + z) := by
  unfold SeedManager.toInt32
  omega

/-- The two hash folds (per-operation 32-bit reduction as in the code, single
reduction per step as in the spec formula) agree. -/
theorem generateDataSeed_eq_specRollingHashSeed (playerIds : List Int) :
    generateDataSeed playerIds = specRollingHashSeed playerIds := by
  unfold SeedManager.generateDataSeed SeedManager.specRollingHashSeed
  have hf : (fun hash id =>
        SeedManager.toInt32 (SeedManager.toInt32 (hash * 32) - hash + id))
      = fun hash id => SeedManager.toInt32 (hash * 32 - hash + id) := by
    funext h i
    exact toInt32_absorb_left (h * 32) h i
  rw [hf]

/-- asUInt32 is the identity on integers already in the unsigned 32-bit
range. -/
theorem asUInt32_of_range (x : Int) (h0 : 0 ≤ x) (h1 : x < 4294967296) :
    SeedManager.asUInt32 x = x.toNat := by
  unfold SeedManager.asUInt32
  omega

/-- asUInt32 always lands below 2^32. -/
theorem asUInt32_lt (x : Int) : SeedManager.asUInt32 x < 4294967296 := by
  unfold SeedManager.asUInt32
  omega

/-- C4: SeedManager.generateDataSeed sorts the ids ascending, folds them with
hash = ((hash << 5) - hash + id) reduced to 32 bits and returns the absolute
value, agreeing with the spec formula (hash mod 2^32 read as the 32-bit
accumulator reduction, absolute value at the end); SeedManager.combineSeed
XORs a supplied caller seed with the data seed as unsigned 32-bit integers,
and returns the data seed unchanged when the caller seed is absent. -/
theorem c4_seed_derivation :
    (∀ playerIds : List Int,
        generateDataSeed playerIds = specRollingHashSeed playerIds) ∧
    (∀ s d : Int, 0 ≤ s → s < 4294967296 → 0 ≤ d → d < 4294967296 →
        combineSeed (some s) d = ((s.toNat ^^^ d.toNat : ℕ) : Int) ∧
        0 ≤ combineSeed (some s) d ∧ combineSeed (some s) d < 4294967296) ∧
    (∀ d : Int, combineSeed none d = d) := by
  refine ⟨generateDataSeed_eq_specRollingHashSeed, ?_, fun d => rfl⟩
  intro s d hs0 hs1 hd0 hd1
  have hxor : (SeedManager.asUInt32 s ^^^ SeedManager.asUInt32 d : ℕ)
      < 4294967296 := by
    have h2 : (4294967296 : ℕ) = 2 ^ 32 := by norm_num
    have hxs : SeedManager.asUInt32 s < 2 ^ 32 := by
      rw [← h2]; exact asUInt32_lt s
    have hxd : SeedManager.asUInt32 d < 2 ^ 32 := by
      rw [← h2]; exact asUInt32_lt d
    have h3 := Nat.xor_lt_two_pow hxs hxd
    rwa [← h2] at h3
  refine ⟨?_, ?_, ?_⟩
  · show ((SeedManager.asUInt32 s ^^^ SeedManager.asUInt32 d : ℕ) : Int) = _
    rw [asUInt32_of_range s hs0 hs1, asUInt32_of_range d hd0 hd1]
  · exact Int.natCast_nonneg _
  · show ((SeedManager.asUInt32 s ^^^ SeedManager.asUInt32 d : ℕ) : Int) < _
    exact_mod_cast hxor

/-- Replacing one list entry exchanges its contribution to the sum. -/
theorem sum_set_add {M : Type} [AddCommMonoid M] (l : List M) :
    ∀ (n : ℕ) (h : n < l.length) (x : M),
      (l.set n x).sum + l[n] = l.sum + x := by
  induction l with
  | nil => intro n h; exact absurd h (by simp)
  | cons a l2 ih =>
    intro n h x
    cases n with
    | zero =>
      simp only [List.set_cons_zero, List.sum_cons, List.getElem_cons_zero]
      abel
    | succ n2 =>
      have h2 : n2 < l2.length := by simpa using h
      simp only [List.set_cons_succ, List.sum_cons, List.getElem_cons_succ]
      rw [add_assoc, ih n2 h2 x, ← add_assoc]

/-- Replacing one list entry exchanges its contribution to the multiset of
elements. -/
theorem coe_set_add {α : Type} (l : List α) :
    ∀ (n : ℕ) (h : n < l.length) (b : α),
      ((l.set n b : List α) : Multiset α) + {l[n]}
        = (l : Multiset α) + {b} := by
  induction l with
  | nil => intro n h; exact absurd h (by simp)
  | cons a l2 ih =>
    intro n h b
    cases n with
    | zero =>
      simp only [List.set_cons_zero, List.getElem_cons_zero,
        ← Multiset.cons_coe, ← Multiset.singleton_add]
      abel
    | succ n2 =>
      have h2 : n2 < l2.length := by simpa using h
      simp only [List.set_cons_succ, List.getElem_cons_succ,
        ← Multiset.cons_coe]
      rw [Multiset.cons_add, Multiset.cons_add, ih n2 h2 b]

/-- The guarded element exchange is a permutation for every pair of
indices. -/
theorem listSwap_perm {α : Type} (l : List α) (i j : ℕ) :
    (DeterministicRandom.listSwap l i j).Perm l := by
  unfold DeterministicRandom.listSwap
  cases hi : l[i]? with
  | none => exact List.Perm.refl l
  | some a =>
    cases hj : l[j]? with
    | none => exact List.Perm.refl l
    | some b =>
      rw [← Multiset.coe_eq_coe]
      obtain ⟨hilt, hia⟩ := List.getElem?_eq_some.mp hi
      obtain ⟨hjlt, hjb⟩ := List.getElem?_eq_some.mp hj
      have hjlt2 : j < (l.set i b).length := by simpa using hjlt
      have hval : (l.set i b)[j] = b := by
        rcases eq_or_ne i j with hij | hij
        · subst hij; simp
        · rw [List.getElem_set_ne hij]; exact hjb
      have F1 := coe_set_add (l.set i b) j hjlt2 a
      have F2 := coe_set_add l i hilt b
      rw [hval] at F1
      rw [hia] at F2
      exact add_right_cancel (F1.trans F2)

/-- Appending an element to the list at an in-range index adds it to the
multiset of all elements. -/
theorem multisetOfLists_modify_append {α : Type} (T : List (List α)) (n : ℕ)
    (h : n < T.length) (p : α) :
    multisetOfLists (List.modify (fun g => g ++ [p]) n T)
      = multisetOfLists T + {p} := by
  have hmod : List.modify (fun g => g ++ [p]) n T = T.set n (T[n] ++ [p]) := by
    rw [List.modify_eq_set, List.getElem?_eq_getElem h]
    rfl
  rw [hmod]
  unfold multisetOfLists
  rw [List.map_set]
  have hlen : n < (T.map Multiset.ofList).length := by simpa using h
  have hs := sum_set_add (T.map Multiset.ofList) n hlen
    (Multiset.ofList (T[n] ++ [p]))
  have hget : (T.map Multiset.ofList)[n] = Multiset.ofList T[n] :=
    List.getElem_map _
  rw [hget] at hs
  have happ : Multiset.ofList (T[n] ++ [p])
      = Multiset.ofList T[n] + {p} := by
    show Multiset.ofList T[n] + Multiset.ofList [p] = _
    rw [Multiset.coe_singleton]
  rw [happ] at hs
  have key : ((T.map Multiset.ofList).set n
        (Multiset.ofList T[n] + {p})).sum + Multiset.ofList T[n]
      = ((T.map Multiset.ofList).sum + {p}) + Multiset.ofList T[n] := by
    rw [hs]; abel
  exact add_right_cancel key

/-- Division and remainder of a successor, within a round. -/
theorem div_mod_succ_of_lt (k n : ℕ) (hk : 0 < k) (h : n % k + 1 < k) :
    (n + 1) / k = n / k ∧ (n + 1) % k = n % k + 1 := by
  have h2 : k * (n / k) + n % k = n := Nat.div_add_mod n k
  have h3 : n + 1 = k * (n / k) + (n % k + 1) := by omega
  constructor
  · rw [h3, Nat.mul_add_div hk, Nat.div_eq_of_lt h, add_zero]
  · rw [h3, Nat.mul_add_mod, Nat.mod_eq_of_lt h]

/-- Division and remainder of a successor, at a round boundary. -/
theorem div_mod_succ_of_eq (k n : ℕ) (hk : 0 < k) (h : n % k + 1 = k) :
    (n + 1) / k = n / k + 1 ∧ (n + 1) % k = 0 := by
  have h2 : k * (n / k) + n % k = n := Nat.div_add_mod n k
  have h4 : k * (n / k + 1) = k * (n / k) + k := by ring
  have h3 : n + 1 = k * (n / k + 1) := by omega
  constructor
  · rw [h3, Nat.mul_div_cancel_left _ hk]
  · rw [h3]; exact Nat.mul_mod_right k _

/-- The snake index always addresses an existing team. -/
theorem snakeIndex_lt (k m : ℕ) (hk : 0 < k) : snakeIndex k m < k := by
  have := Nat.mod_lt m hk
  unfold snakeIndex
  split <;> omega

/-- One snake step adds one member exactly to the team at the snake index. -/
theorem snakeCount_succ (k n i : ℕ) (hk : 0 < k) (hi : i < k) :
    snakeCount k (n + 1) i
      = snakeCount k n i + (if snakeIndex k n = i then 1 else 0) := by
  have hr : n % k < k := Nat.mod_lt n hk
  rcases Nat.lt_or_ge (n % k + 1) k with h1 | h1
  · obtain ⟨hd, hm⟩ := div_mod_succ_of_lt k n hk h1
    unfold snakeCount snakeIndex
    rw [hd, hm]
    split_ifs <;> omega
  · have h1b : n % k + 1 = k := by omega
    obtain ⟨hd, hm⟩ := div_mod_succ_of_eq k n hk h1b
    unfold snakeCount snakeIndex
    rw [hd, hm]
    split_ifs <;> omega

/-- Every team count stays within one of the round count. -/
theorem snakeCount_bounds (k n i : ℕ) :
    n / k ≤ snakeCount k n i ∧ snakeCount k n i ≤ n / k + 1 := by
  unfold snakeCount
  split_ifs <;> omega

/-- Summing the indicator of a fixed index over a range. -/
theorem indicator_sum_range (k x : ℕ) :
    ((List.range k).map (fun i => if x = i then (1 : ℕ) else 0)).sum
      = if x < k then 1 else 0 := by
  induction k with
  | zero => simp
  | succ k2 ih =>
    rw [List.range_succ, List.map_append, List.sum_append, ih]
    simp only [List.map_cons, List.map_nil, List.sum_cons, List.sum_nil]
    split_ifs <;> omega

/-- The closed-form per-team counts always sum to the number of members
distributed. -/
theorem snakeCount_sum (k n : ℕ) (hk : 0 < k) :
    ((List.range k).map (snakeCount k n)).sum = n := by
  induction n with
  | zero =>
    have h0 : ∀ i ∈ List.range k, snakeCount k 0 i = 0 := by
      intro i hi
      unfold snakeCount
      simp
    rw [List.map_congr_left h0]
    simp
  | succ n2 ih =>
    have hc : ∀ i ∈ List.range k, snakeCount k (n2 + 1) i
        = snakeCount k n2 i + (if snakeIndex k n2 = i then 1 else 0) := by
      intro i hi
      exact snakeCount_succ k n2 i hk (List.mem_range.mp hi)
    rw [List.map_congr_left hc, List.sum_map_add, ih, indicator_sum_range,
      if_pos (snakeIndex_lt k n2 hk)]

/-- The cursor and direction of the snake walk follow the closed forms. -/
theorem snakeStep_cur_dir (k : ℕ) (hk : 0 < k) (s : SnakeState)
    (p : PlayerWithScore) (n : ℕ) (hc : s.cur = (snakeIndex k n : Int))
    (hd : s.dir = snakeDirInt k n) :
    (TeamBalancer.snakeStep k s p).cur = (snakeIndex k (n + 1) : Int)
      ∧ (TeamBalancer.snakeStep k s p).dir = snakeDirInt k (n + 1) := by
  have hr : n % k < k := Nat.mod_lt n hk
  rcases Nat.mod_two_eq_zero_or_one (n / k) with hp | hp <;>
    rcases Nat.lt_or_ge (n % k + 1) k with h1 | h1
  · obtain ⟨hdv, hm⟩ := div_mod_succ_of_lt k n hk h1
    have e1 : snakeIndex k n = n % k := by simp [snakeIndex, hp]
    have e3 : snakeIndex k (n + 1) = n % k + 1 := by
      simp [snakeIndex, hdv, hm, hp]
    have e4 : snakeDirInt k (n + 1) = 1 := by simp [snakeDirInt, hdv, hp]
    have e2 : snakeDirInt k n = 1 := by simp [snakeDirInt, hp]
    rw [e1] at hc; rw [e2] at hd
    unfold TeamBalancer.snakeStep
    rw [hc, hd, e3, e4]
    have hcond : ¬ ((k : Int) ≤ (n % k : ℕ) + 1) := by
      push_cast
      omega
    rw [if_neg hcond, if_neg (by push_cast; omega : ¬ (((n % k : ℕ) : Int) + 1 < 0))]
    constructor
    · show ((n % k : ℕ) : Int) + 1 = ((n % k + 1 : ℕ) : Int)
      push_cast
      ring
    · rfl
  · have h1b : n % k + 1 = k := by omega
    obtain ⟨hdv, hm⟩ := div_mod_succ_of_eq k n hk h1b
    have e1 : snakeIndex k n = n % k := by simp [snakeIndex, hp]
    have e2 : snakeDirInt k n = 1 := by simp [snakeDirInt, hp]
    have e3 : snakeIndex k (n + 1) = k - 1 := by
      simp [snakeIndex, hdv, hm, hp, Nat.add_mod]
    have e4 : snakeDirInt k (n + 1) = -1 := by
      simp [snakeDirInt, hdv, hp, Nat.add_mod]
    rw [e1] at hc; rw [e2] at hd
    unfold TeamBalancer.snakeStep
    rw [hc, hd, e3, e4]
    have hcond : (k : Int) ≤ ((n % k : ℕ) : Int) + 1 := by push_cast; omega
    rw [if_pos hcond]
    constructor
    · show (k : Int) - 1 = ((k - 1 : ℕ) : Int)
      omega
    · rfl
  · obtain ⟨hdv, hm⟩ := div_mod_succ_of_lt k n hk h1
    have e1 : snakeIndex k n = k - 1 - n % k := by simp [snakeIndex, hp]
    have e2 : snakeDirInt k n = -1 := by simp [snakeDirInt, hp]
    have e3 : snakeIndex k (n + 1) = k - 1 - (n % k + 1) := by
      simp [snakeIndex, hdv, hm, hp]
    have e4 : snakeDirInt k (n + 1) = -1 := by simp [snakeDirInt, hdv, hp]
    rw [e1] at hc; rw [e2] at hd
    unfold TeamBalancer.snakeStep
    rw [hc, hd, e3, e4]
    have hcond : ¬ ((k : Int) ≤ ((k - 1 - n % k : ℕ) : Int) + -1) := by
      omega
    have hcond2 : ¬ (((k - 1 - n % k : ℕ) : Int) + -1 < 0) := by
      omega
    rw [if_neg hcond, if_neg hcond2]
    constructor
    · show ((k - 1 - n % k : ℕ) : Int) + -1 = ((k - 1 - (n % k + 1) : ℕ) : Int)
      omega
    · rfl
  · have h1b : n % k + 1 = k := by omega
    obtain ⟨hdv, hm⟩ := div_mod_succ_of_eq k n hk h1b
    have e1 : snakeIndex k n = k - 1 - n % k := by simp [snakeIndex, hp]
    have e2 : snakeDirInt k n = -1 := by simp [snakeDirInt, hp]
    have e3 : snakeIndex k (n + 1) = 0 := by
      simp [snakeIndex, hdv, hm, hp, Nat.add_mod]
    have e4 : snakeDirInt k (n + 1) = 1 := by
      simp [snakeDirInt, hdv, hp, Nat.add_mod]
    rw [e1] at hc; rw [e2] at hd
    unfold TeamBalancer.snakeStep
    rw [hc, hd, e3, e4]
    have hcondA : ¬ ((k : Int) ≤ ((k - 1 - n % k : ℕ) : Int) + -1) := by
      omega
    have hcondB : (((k - 1 - n % k : ℕ) : Int) + -1 < 0) := by
      omega
    rw [if_neg hcondA, if_pos hcondB]
    exact ⟨rfl, rfl⟩

/-- Recomputing the aggregates leaves the member list unchanged. -/
theorem calculateTeamStats_players (t : Team) :
    (MetricsCalculator.calculateTeamStats t).players = t.players := by
  unfold MetricsCalculator.calculateTeamStats
  split <;> rfl

/-- Recomputing the aggregates sets the size to the member count. -/
theorem calculateTeamStats_size (t : Team) :
    (MetricsCalculator.calculateTeamStats t).size = t.players.length := by
  unfold MetricsCalculator.calculateTeamStats
  split
  · next h => exact h.symm
  · rfl

/-- Recomputing the aggregates leaves the team id unchanged. -/
theorem calculateTeamStats_team_id (t : Team) :
    (MetricsCalculator.calculateTeamStats t).team_id = t.team_id := by
  unfold MetricsCalculator.calculateTeamStats
  split <;> rfl

/-- Invariant of the snake-draft fold: team lengths follow the closed-form
counts, the cursor and direction follow the closed forms, and the distributed
members form exactly the input multiset. -/
theorem snakeFold_spec (k : ℕ) (hk : 0 < k) (L : List PlayerWithScore) :
    (snakeFold k L).teams.map List.length
        = (List.range k).map (snakeCount k L.length)
      ∧ (snakeFold k L).cur = (snakeIndex k L.length : Int)
      ∧ (snakeFold k L).dir = snakeDirInt k L.length
      ∧ multisetOfLists (snakeFold k L).teams = Multiset.ofList L := by
  induction L using List.reverseRecOn with
  | nil =>
    have hz : ∀ i ∈ List.range k, snakeCount k 0 i = 0 := by
      intro i hi
      unfold snakeCount
      simp
    refine ⟨?_, ?_, ?_, ?_⟩
    · show (List.replicate k ([] : List PlayerWithScore)).map List.length
        = (List.range k).map (snakeCount k ([] : List PlayerWithScore).length)
      rw [List.length_nil, List.map_congr_left hz, List.map_replicate]
      simp
    · show (0 : Int) = ((snakeIndex k ([] : List PlayerWithScore).length : ℕ) : Int)
      rw [List.length_nil]
      unfold snakeIndex
      simp
    · show (1 : Int) = snakeDirInt k ([] : List PlayerWithScore).length
      rw [List.length_nil]
      unfold snakeDirInt
      simp
    · show multisetOfLists (List.replicate k ([] : List PlayerWithScore))
        = Multiset.ofList ([] : List PlayerWithScore)
      unfold multisetOfLists
      rw [List.map_replicate, List.sum_replicate]
      simp
  | append_singleton L a ih =>
    obtain ⟨ih1, ih2, ih3, ih4⟩ := ih
    have hfold : snakeFold k (L ++ [a])
        = TeamBalancer.snakeStep k (snakeFold k L) a := by
      unfold TeamBalancer.snakeFold
      rw [List.foldl_append]
      rfl
    have hTlen : (snakeFold k L).teams.length = k := by
      have h5 := congrArg List.length ih1
      simpa using h5
    have hn : (L ++ [a]).length = L.length + 1 := by simp
    have hcurN : (snakeFold k L).cur.toNat = snakeIndex k L.length := by
      rw [ih2, Int.toNat_natCast]
    have hidx : snakeIndex k L.length < k := snakeIndex_lt k L.length hk
    have hteams : (TeamBalancer.snakeStep k (snakeFold k L) a).teams
        = List.modify (fun g => g ++ [a]) (snakeIndex k L.length)
            (snakeFold k L).teams := by
      simp only [TeamBalancer.snakeStep]
      rw [hcurN]
      split_ifs <;> rfl
    obtain ⟨hcur2, hdir2⟩ :=
      snakeStep_cur_dir k hk (snakeFold k L) a L.length ih2 ih3
    refine ⟨?_, ?_, ?_, ?_⟩
    · rw [hfold, hteams, hn]
      apply List.ext_getElem
      · simp [hTlen]
      · intro m h1 h2
        have hmk : m < k := by simpa using h2
        have hmT : m < (snakeFold k L).teams.length := by
          rw [hTlen]
          exact hmk
        rw [List.getElem_map, List.getElem_modify, List.getElem_map,
          List.getElem_range, snakeCount_succ k L.length m hk hmk]
        have hmap : m < ((snakeFold k L).teams.map List.length).length := by
          simpa using hmT
        have h6 := List.getElem_of_eq ih1 hmap
        rw [List.getElem_map, List.getElem_map, List.getElem_range] at h6
        split_ifs with h8
        · simp [h6]
        · simp [h6]
    · rw [hfold, hn]
      exact hcur2
    · rw [hfold, hn]
      exact hdir2
    · rw [hfold, hteams]
      have hidxT : snakeIndex k L.length < (snakeFold k L).teams.length := by
        rw [hTlen]
        exact hidx
      rw [multisetOfLists_modify_append _ _ hidxT, ih4]
      show Multiset.ofList L + {a} = Multiset.ofList L + Multiset.ofList [a]
      rw [Multiset.coe_singleton]

/-- The teams built by createBalancedTeams: k teams, member counts following
the closed-form snake counts (both as list lengths and as the recomputed size
aggregate), holding exactly the input players. -/
theorem createBalancedTeams_spec (L : List PlayerWithScore) (k : ℕ)
    (hk : 0 < k) :
    (TeamBalancer.createBalancedTeams L k).length = k
      ∧ (TeamBalancer.createBalancedTeams L k).map (fun t => t.players.length)
          = (List.range k).map (snakeCount k L.length)
      ∧ (TeamBalancer.createBalancedTeams L k).map Team.size
          = (List.range k).map (snakeCount k L.length)
      ∧ multisetOfTeams (TeamBalancer.createBalancedTeams L k)
          = Multiset.ofList L := by
  have hrank : (rankPlayersByScore L).Perm L := stableSort_perm rankLE L
  have hlen : (rankPlayersByScore L).length = L.length := hrank.length_eq
  obtain ⟨h1, h2x, h3x, h4⟩ := snakeFold_spec k hk (rankPlayersByScore L)
  have hTlen : (snakeFold k (rankPlayersByScore L)).teams.length = k := by
    have h5 := congrArg List.length h1
    simpa using h5
  have hclen : (TeamBalancer.createBalancedTeams L k).length = k := by
    show (List.zipWith
        (fun i g => calculateTeamStats (Team.mk (i + 1) g 0 0 0))
        (List.range k) (snakeFold k (rankPlayersByScore L)).teams).length = k
    rw [List.length_zipWith, hTlen, List.length_range]
    exact min_self k
  have hpoint : ∀ m, ∀ hmT : m < (snakeFold k (rankPlayersByScore L)).teams.length,
      ((snakeFold k (rankPlayersByScore L)).teams[m]).length
        = snakeCount k L.length m := by
    intro m hmT
    have hmap : m <
        ((snakeFold k (rankPlayersByScore L)).teams.map List.length).length := by
      simpa using hmT
    have h6 := List.getElem_of_eq h1 hmap
    rw [List.getElem_map, List.getElem_map, List.getElem_range] at h6
    rw [← hlen]
    exact h6
  have hgetT : ∀ m, ∀ hmT : m < (snakeFold k (rankPlayersByScore L)).teams.length,
      ∀ hmc : m < (TeamBalancer.createBalancedTeams L k).length,
      (TeamBalancer.createBalancedTeams L k)[m]
        = calculateTeamStats
            (Team.mk (m + 1)
              ((snakeFold k (rankPlayersByScore L)).teams[m]) 0 0 0) := by
    intro m hmT hmc
    show (List.zipWith
        (fun i g => calculateTeamStats (Team.mk (i + 1) g 0 0 0))
        (List.range k) (snakeFold k (rankPlayersByScore L)).teams)[m] = _
    rw [List.getElem_zipWith, List.getElem_range]
  refine ⟨hclen, ?_, ?_, ?_⟩
  · apply List.ext_getElem
    · rw [List.length_map, hclen, List.length_map, List.length_range]
    · intro m hm1 hm2
      have hmk : m < k := by simpa using hm2
      have hmT : m < (snakeFold k (rankPlayersByScore L)).teams.length := by
        rw [hTlen]
        exact hmk
      have hmc : m < (TeamBalancer.createBalancedTeams L k).length := by
        rw [hclen]
        exact hmk
      rw [List.getElem_map, List.getElem_map, List.getElem_range,
        hgetT m hmT hmc, calculateTeamStats_players]
      exact hpoint m hmT
  · apply List.ext_getElem
    · rw [List.length_map, hclen, List.length_map, List.length_range]
    · intro m hm1 hm2
      have hmk : m < k := by simpa using hm2
      have hmT : m < (snakeFold k (rankPlayersByScore L)).teams.length := by
        rw [hTlen]
        exact hmk
      have hmc : m < (TeamBalancer.createBalancedTeams L k).length := by
        rw [hclen]
        exact hmk
      rw [List.getElem_map, List.getElem_map, List.getElem_range,
        hgetT m hmT hmc, calculateTeamStats_size]
      exact hpoint m hmT
  · have hmaps : (TeamBalancer.createBalancedTeams L k).map
        (fun t => Multiset.ofList t.players)
        = (snakeFold k (rankPlayersByScore L)).teams.map Multiset.ofList := by
      apply List.ext_getElem
      · rw [List.length_map, hclen, List.length_map, hTlen]
      · intro m hm1 hm2
        have hmk : m < k := by
          have := hm2
          rw [List.length_map, hTlen] at this
          exact this
        have hmT : m < (snakeFold k (rankPlayersByScore L)).teams.length := by
          rw [hTlen]
          exact hmk
        have hmc : m < (TeamBalancer.createBalancedTeams L k).length := by
          rw [hclen]
          exact hmk
        rw [List.getElem_map, List.getElem_map, hgetT m hmT hmc,
          calculateTeamStats_players]
    unfold multisetOfTeams
    rw [hmaps]
    have h8 := h4
    unfold multisetOfLists at h8
    rw [h8]
    exact Multiset.coe_eq_coe.mpr hrank

/-- Recomputing aggregates over a team list leaves any projection of the
member lists unchanged. -/
theorem map_stats_proj {β : Type} (f : List PlayerWithScore → β)
    (teams : List Team) :
    (teams.map MetricsCalculator.calculateTeamStats).map (fun t => f t.players)
      = teams.map (fun t => f t.players) := by
  rw [List.map_map]
  apply List.map_congr_left
  intro t ht
  show f (MetricsCalculator.calculateTeamStats t).players = f t.players
  rw [calculateTeamStats_players]

/-- Recomputing aggregates leaves the held multiset of players unchanged. -/
theorem multisetOfTeams_map_stats (teams : List Team) :
    multisetOfTeams (teams.map MetricsCalculator.calculateTeamStats)
      = multisetOfTeams teams := by
  unfold multisetOfTeams
  rw [List.map_map]
  congr 1
  apply List.map_congr_left
  intro t ht
  show Multiset.ofList (MetricsCalculator.calculateTeamStats t).players
    = Multiset.ofList t.players
  rw [calculateTeamStats_players]

/-- The team mean scores depend only on the member lists, hence are invariant
under aggregate recomputation. -/
theorem teamMeanScores_map_stats (teams : List Team) :
    teamMeanScores (teams.map MetricsCalculator.calculateTeamStats)
      = teamMeanScores teams := by
  unfold MetricsCalculator.teamMeanScores
  rw [List.map_map]
  apply List.map_congr_left
  intro t ht
  show (if (MetricsCalculator.calculateTeamStats t).players.length = 0 then 0
      else ((MetricsCalculator.calculateTeamStats t).players.map
        (·.composite_score)).sum
          / (MetricsCalculator.calculateTeamStats t).players.length) = _
  rw [calculateTeamStats_players]

/-- The balance coefficient is invariant under aggregate recomputation. -/
theorem balanceCoefficient_map_stats (teams : List Team) :
    balanceCoefficient (teams.map MetricsCalculator.calculateTeamStats)
      = balanceCoefficient teams := by
  unfold MetricsCalculator.balanceCoefficient MetricsCalculator.scoreVariance
  rw [teamMeanScores_map_stats]

/-- Replacing one team exchanges its members in the held multiset. -/
theorem multisetOfTeams_set (l : List Team) (n : ℕ) (h : n < l.length)
    (A : Team) :
    multisetOfTeams (l.set n A) + Multiset.ofList (l[n]).players
      = multisetOfTeams l + Multiset.ofList A.players := by
  unfold multisetOfTeams
  rw [List.map_set]
  have hlen : n < (l.map (fun t => Multiset.ofList t.players)).length := by
    simpa using h
  have hs := sum_set_add (l.map (fun t => Multiset.ofList t.players)) n hlen
    (Multiset.ofList A.players)
  rw [List.getElem_map] at hs
  exact hs

/-- Replacing two distinct teams while conserving their pooled members
preserves the held multiset of players. -/
theorem set_swap_multiset (teams : List Team) (i j : ℕ) (A B : Team)
    (hij : i ≠ j) (hilt : i < teams.length) (hjlt : j < teams.length)
    (hAB : Multiset.ofList A.players + Multiset.ofList B.players
      = Multiset.ofList (teams[i]).players
        + Multiset.ofList (teams[j]).players) :
    multisetOfTeams (((teams.set i A).set j B).map
        MetricsCalculator.calculateTeamStats)
      = multisetOfTeams teams := by
  rw [multisetOfTeams_map_stats]
  have hjlt2 : j < (teams.set i A).length := by simpa using hjlt
  have hjv2 : (teams.set i A)[j] = teams[j] := by
    rw [List.getElem_set, if_neg hij]
  have E3 := multisetOfTeams_set (teams.set i A) j hjlt2 B
  rw [hjv2] at E3
  have E1 := multisetOfTeams_set teams i hilt A
  have key : multisetOfTeams ((teams.set i A).set j B)
        + (Multiset.ofList (teams[j]).players
            + Multiset.ofList (teams[i]).players)
      = multisetOfTeams teams
        + (Multiset.ofList (teams[j]).players
            + Multiset.ofList (teams[i]).players) := by
    calc multisetOfTeams ((teams.set i A).set j B)
          + (Multiset.ofList (teams[j]).players
              + Multiset.ofList (teams[i]).players)
        = (multisetOfTeams ((teams.set i A).set j B)
              + Multiset.ofList (teams[j]).players)
            + Multiset.ofList (teams[i]).players := by abel
      _ = (multisetOfTeams (teams.set i A) + Multiset.ofList B.players)
            + Multiset.ofList (teams[i]).players := by rw [E3]
      _ = (multisetOfTeams (teams.set i A)
              + Multiset.ofList (teams[i]).players)
            + Multiset.ofList B.players := by abel
      _ = (multisetOfTeams teams + Multiset.ofList A.players)
            + Multiset.ofList B.players := by rw [E1]
      _ = multisetOfTeams teams
            + (Multiset.ofList A.players + Multiset.ofList B.players) := by
              abel
      _ = multisetOfTeams teams
            + (Multiset.ofList (teams[i]).players
                + Multiset.ofList (teams[j]).players) := by rw [hAB]
      _ = multisetOfTeams teams
            + (Multiset.ofList (teams[j]).players
                + Multiset.ofList (teams[i]).players) := by abel
  exact add_right_cancel key

/-- In-range reduction of swapPlayers to its two team replacements. -/
theorem swapPlayers_eq_of_lt (teams : List Team) (i pa j pb : ℕ)
    (hilt : i < teams.length) (hjlt : j < teams.length)
    (hpalt : pa < (teams[i]).players.length)
    (hpblt : pb < (teams[j]).players.length) :
    TeamBalancer.swapPlayers teams i pa j pb
      = ((teams.set i
            (Team.mk (teams[i]).team_id
              ((teams[i]).players.set pa ((teams[j]).players[pb]))
              (teams[i]).total_score (teams[i]).average_score
              (teams[i]).size)).set j
          (Team.mk (teams[j]).team_id
            ((teams[j]).players.set pb ((teams[i]).players[pa]))
            (teams[j]).total_score (teams[j]).average_score
            (teams[j]).size)).map
        MetricsCalculator.calculateTeamStats := by
  unfold TeamBalancer.swapPlayers
  rw [List.getD_eq_getElem teams dummyTeam hilt,
    List.getD_eq_getElem teams dummyTeam hjlt,
    if_pos (And.intro hilt hjlt), if_pos (And.intro hpalt hpblt),
    List.getD_eq_getElem (teams[i]).players dummyPlayer hpalt,
    List.getD_eq_getElem (teams[j]).players dummyPlayer hpblt]

/-- A cross-team swap of two members preserves the held multiset of
players. -/
theorem swapPlayers_multiset (teams : List Team) (i pa j pb : ℕ)
    (hij : i ≠ j) (hilt : i < teams.length) (hjlt : j < teams.length)
    (hpalt : pa < (teams[i]).players.length)
    (hpblt : pb < (teams[j]).players.length) :
    multisetOfTeams (TeamBalancer.swapPlayers teams i pa j pb)
      = multisetOfTeams teams := by
  rw [swapPlayers_eq_of_lt teams i pa j pb hilt hjlt hpalt hpblt]
  apply set_swap_multiset teams i j _ _ hij hilt hjlt
  have E2 := coe_set_add (teams[i]).players pa hpalt ((teams[j]).players[pb])
  have E4 := coe_set_add (teams[j]).players pb hpblt ((teams[i]).players[pa])
  have key : (Multiset.ofList ((teams[i]).players.set pa
          ((teams[j]).players[pb]))
        + Multiset.ofList ((teams[j]).players.set pb
          ((teams[i]).players[pa])))
        + ({(teams[i]).players[pa]} + {(teams[j]).players[pb]})
      = (Multiset.ofList (teams[i]).players
          + Multiset.ofList (teams[j]).players)
        + ({(teams[i]).players[pa]} + {(teams[j]).players[pb]}) := by
    calc (Multiset.ofList ((teams[i]).players.set pa ((teams[j]).players[pb]))
          + Multiset.ofList ((teams[j]).players.set pb
            ((teams[i]).players[pa])))
          + ({(teams[i]).players[pa]} + {(teams[j]).players[pb]})
        = (Multiset.ofList ((teams[i]).players.set pa
              ((teams[j]).players[pb])) + {(teams[i]).players[pa]})
          + (Multiset.ofList ((teams[j]).players.set pb
              ((teams[i]).players[pa])) + {(teams[j]).players[pb]}) := by abel
      _ = (Multiset.ofList (teams[i]).players + {(teams[j]).players[pb]})
          + (Multiset.ofList ((teams[j]).players.set pb
              ((teams[i]).players[pa])) + {(teams[j]).players[pb]}) := by
            rw [E2]
      _ = (Multiset.ofList (teams[i]).players + {(teams[j]).players[pb]})
          + (Multiset.ofList (teams[j]).players
              + {(teams[i]).players[pa]}) := by rw [E4]
      _ = (Multiset.ofList (teams[i]).players
            + Multiset.ofList (teams[j]).players)
          + ({(teams[i]).players[pa]} + {(teams[j]).players[pb]}) := by abel
  exact add_right_cancel key

/-- A cross-team swap of two members preserves every team's member count. -/
theorem swapPlayers_lengths (teams : List Team) (i pa j pb : ℕ)
    (hilt : i < teams.length) (hjlt : j < teams.length)
    (hpalt : pa < (teams[i]).players.length)
    (hpblt : pb < (teams[j]).players.length) :
    (TeamBalancer.swapPlayers teams i pa j pb).map (fun t => t.players.length)
      = teams.map (fun t => t.players.length) := by
  rw [swapPlayers_eq_of_lt teams i pa j pb hilt hjlt hpalt hpblt,
    map_stats_proj List.length]
  apply List.ext_getElem
  · simp
  · intro m h1 h2
    rw [List.getElem_map, List.getElem_map, List.getElem_set,
      List.getElem_set]
    split_ifs with h3 h4
    · subst h3
      show ((teams[j]).players.set pb ((teams[i]).players[pa])).length
        = (teams[j]).players.length
      rw [List.length_set]
    · subst h4
      show ((teams[i]).players.set pa ((teams[j]).players[pb])).length
        = (teams[i]).players.length
      rw [List.length_set]
    · rfl

/-- What a successful first-improvement search returns: an in-range quadruple
with i < j whose swap strictly improves the balance coefficient. -/
theorem findImprovingSwap_spec (teams : List Team) (q : ℕ × ℕ × ℕ × ℕ)
    (h : TeamBalancer.findImprovingSwap teams = some q) :
    ∃ i pa j pb, q = (i, pa, j, pb) ∧ i < j ∧ i < teams.length
      ∧ j < teams.length ∧ pa < (teams.getD i dummyTeam).players.length
      ∧ pb < (teams.getD j dummyTeam).players.length
      ∧ balanceCoefficient teams
          < balanceCoefficient (TeamBalancer.swapPlayers teams i pa j pb) := by
  unfold TeamBalancer.findImprovingSwap at h
  obtain ⟨i, hi, h2⟩ := List.exists_of_findSome?_eq_some h
  obtain ⟨j, hj, h3⟩ := List.exists_of_findSome?_eq_some h2
  have hilt : i < teams.length := List.mem_range.mp hi
  have hjlt : j < teams.length := List.mem_range.mp hj
  by_cases hji : j ≤ i
  · rw [if_pos hji] at h3
    exact absurd h3 (by simp)
  rw [if_neg hji] at h3
  obtain ⟨pa, hpa, h4⟩ := List.exists_of_findSome?_eq_some h3
  obtain ⟨pb, hpb, h5⟩ := List.exists_of_findSome?_eq_some h4
  have hpalt : pa < (teams.getD i dummyTeam).players.length :=
    List.mem_range.mp hpa
  have hpblt : pb < (teams.getD j dummyTeam).players.length :=
    List.mem_range.mp hpb
  by_cases himp : balanceCoefficient teams
      < balanceCoefficient (TeamBalancer.swapPlayers teams i pa j pb)
  · rw [if_pos himp] at h5
    have hq : q = (i, pa, j, pb) := by
      injection h5 with h6
      exact h6.symm
    exact ⟨i, pa, j, pb, hq, by omega, hilt, hjlt, hpalt, hpblt, himp⟩
  · rw [if_neg himp] at h5
    exact absurd h5 (by simp)

/-- A successful attemptPlayerSwaps step preserves the held multiset and the
member counts, and strictly improves the balance coefficient. -/
theorem attemptPlayerSwaps_spec (teams t2 : List Team)
    (h : TeamBalancer.attemptPlayerSwaps teams = some t2) :
    multisetOfTeams t2 = multisetOfTeams teams
      ∧ t2.map (fun t => t.players.length)
          = teams.map (fun t => t.players.length)
      ∧ balanceCoefficient teams < balanceCoefficient t2 := by
  unfold TeamBalancer.attemptPlayerSwaps at h
  cases hf : TeamBalancer.findImprovingSwap teams with
  | none =>
    rw [hf] at h
    exact absurd h (by simp)
  | some q =>
    rw [hf] at h
    obtain ⟨i, pa, j, pb, hq, hij, hilt, hjlt, hpalt0, hpblt0, himp⟩ :=
      findImprovingSwap_spec teams q hf
    subst hq
    have hpalt : pa < (teams[i]).players.length := by
      rwa [List.getD_eq_getElem teams dummyTeam hilt] at hpalt0
    have hpblt : pb < (teams[j]).players.length := by
      rwa [List.getD_eq_getElem teams dummyTeam hjlt] at hpblt0
    have ht2 : TeamBalancer.swapPlayers teams i pa j pb = t2 := by
      have h7 : some (TeamBalancer.swapPlayers teams i pa j pb) = some t2 := h
      injection h7
    rw [← ht2]
    exact ⟨swapPlayers_multiset teams i pa j pb (Nat.ne_of_lt hij) hilt hjlt
        hpalt hpblt,
      swapPlayers_lengths teams i pa j pb hilt hjlt hpalt hpblt, himp⟩

/-- Invariant of the optimizer loop: the tracked coefficient always equals the
coefficient of the tracked best teams and never decreases, and the best teams
keep the held multiset and the member counts of the input. -/
theorem optimizeLoop_spec (fuel : ℕ) :
    ∀ (current best : List Team) (bc : ℚ) (iters : ℕ),
      bc = balanceCoefficient best →
      multisetOfTeams current = multisetOfTeams best →
      current.map (fun t => t.players.length)
        = best.map (fun t => t.players.length) →
      (TeamBalancer.optimizeLoop fuel current best bc iters).2.1
          = balanceCoefficient
              (TeamBalancer.optimizeLoop fuel current best bc iters).1
        ∧ bc ≤ (TeamBalancer.optimizeLoop fuel current best bc iters).2.1
        ∧ multisetOfTeams
              (TeamBalancer.optimizeLoop fuel current best bc iters).1
            = multisetOfTeams best
        ∧ (TeamBalancer.optimizeLoop fuel current best bc iters).1.map
              (fun t => t.players.length)
            = best.map (fun t => t.players.length) := by
  induction fuel with
  | zero =>
    intro current best bc iters hbc hms hlen
    exact ⟨hbc, le_refl bc, rfl, rfl⟩
  | succ fuel2 ih =>
    intro current best bc iters hbc hms hlen
    cases hat : TeamBalancer.attemptPlayerSwaps current with
    | none =>
      have hred : TeamBalancer.optimizeLoop (fuel2 + 1) current best bc iters
          = (best, bc, iters + 1) := by
        rw [TeamBalancer.optimizeLoop.eq_2, hat]
      rw [hred]
      exact ⟨hbc, le_refl bc, rfl, rfl⟩
    | some improved =>
      obtain ⟨him1, him2, him3⟩ := attemptPlayerSwaps_spec current improved hat
      by_cases hcmp : bc < balanceCoefficient improved
      · have hred : TeamBalancer.optimizeLoop (fuel2 + 1) current best bc iters
            = TeamBalancer.optimizeLoop fuel2 improved improved
                (balanceCoefficient improved) (iters + 1) := by
          rw [TeamBalancer.optimizeLoop.eq_2, hat]
          dsimp only
          rw [if_pos hcmp]
        rw [hred]
        obtain ⟨a1, a2, a3, a4⟩ := ih improved improved
          (balanceCoefficient improved) (iters + 1) rfl rfl rfl
        refine ⟨a1, le_trans (le_of_lt hcmp) a2, ?_, ?_⟩
        · rw [a3, him1, hms]
        · rw [a4, him2, hlen]
      · have hred : TeamBalancer.optimizeLoop (fuel2 + 1) current best bc iters
            = TeamBalancer.optimizeLoop fuel2 improved best bc (iters + 1) := by
          rw [TeamBalancer.optimizeLoop.eq_2, hat]
          dsimp only
          rw [if_neg hcmp]
        rw [hred]
        exact ih improved best bc (iters + 1) hbc (him1.trans hms)
          (him2.trans hlen)

/-- The optimizer output: same held multiset and member counts as the input
(sizes recomputed as the member counts), a balance coefficient at least the
input coefficient, and a nonnegative reported improvement. -/
theorem optimizeTeamBalance_spec (teams : List Team) (maxIterations : ℕ) :
    multisetOfTeams
        ((TeamBalancer.optimizeTeamBalance teams maxIterations).optimized)
        = multisetOfTeams teams
      ∧ (TeamBalancer.optimizeTeamBalance teams maxIterations).optimized.map
            (fun t => t.players.length)
          = teams.map (fun t => t.players.length)
      ∧ (TeamBalancer.optimizeTeamBalance teams maxIterations).optimized.map
            Team.size
          = teams.map (fun t => t.players.length)
      ∧ balanceCoefficient teams
          ≤ balanceCoefficient
              ((TeamBalancer.optimizeTeamBalance teams maxIterations).optimized)
      ∧ 0 ≤ (TeamBalancer.optimizeTeamBalance teams maxIterations).improvement := by
  obtain ⟨a1, a2, a3, a4⟩ := optimizeLoop_spec maxIterations teams teams
    (balanceCoefficient teams) 0 rfl rfl rfl
  have hopt : (TeamBalancer.optimizeTeamBalance teams maxIterations).optimized
      = (TeamBalancer.optimizeLoop maxIterations teams teams
          (balanceCoefficient teams) 0).1.map
        MetricsCalculator.calculateTeamStats := rfl
  have himp : (TeamBalancer.optimizeTeamBalance teams maxIterations).improvement
      = (TeamBalancer.optimizeLoop maxIterations teams teams
          (balanceCoefficient teams) 0).2.1 - balanceCoefficient teams := rfl
  refine ⟨?_, ?_, ?_, ?_, ?_⟩
  · rw [hopt, multisetOfTeams_map_stats, a3]
  · rw [hopt, map_stats_proj List.length, a4]
  · rw [hopt]
    have hsz : ((TeamBalancer.optimizeLoop maxIterations teams teams
          (balanceCoefficient teams) 0).1.map
          MetricsCalculator.calculateTeamStats).map Team.size
        = (TeamBalancer.optimizeLoop maxIterations teams teams
            (balanceCoefficient teams) 0).1.map (fun t => t.players.length) := by
      rw [List.map_map]
      apply List.map_congr_left
      intro t ht
      show (MetricsCalculator.calculateTeamStats t).size = t.players.length
      exact calculateTeamStats_size t
    rw [hsz, a4]
  · rw [hopt, balanceCoefficient_map_stats, ← a1]
    exact a2
  · rw [himp]
    linarith [a2]

/-- The rank comparator is transitive. -/
theorem rankLE_trans (a b c : PlayerWithScore)
    (hab : MetricsCalculator.rankLE a b = true)
    (hbc : MetricsCalculator.rankLE b c = true) :
    MetricsCalculator.rankLE a c = true := by
  unfold MetricsCalculator.rankLE at hab hbc ⊢
  by_cases h1 : a.composite_score = b.composite_score
  · rw [if_pos h1] at hab
    have i1 := of_decide_eq_true hab
    by_cases h2 : b.composite_score = c.composite_score
    · rw [if_pos h2] at hbc
      have i2 := of_decide_eq_true hbc
      rw [if_pos (h1.trans h2)]
      exact decide_eq_true (le_trans i1 i2)
    · rw [if_neg h2] at hbc
      have i2 := of_decide_eq_true hbc
      have h3 : ¬ a.composite_score = c.composite_score := by
        intro h
        exact h2 (h1.symm.trans h)
      rw [if_neg h3]
      refine decide_eq_true ?_
      rw [h1]
      exact i2
  · rw [if_neg h1] at hab
    have i1 := of_decide_eq_true hab
    by_cases h2 : b.composite_score = c.composite_score
    · rw [if_pos h2] at hbc
      have h3 : ¬ a.composite_score = c.composite_score := by
        intro h
        exact h1 (h.trans h2.symm)
      rw [if_neg h3]
      refine decide_eq_true ?_
      rw [← h2]
      exact i1
    · rw [if_neg h2] at hbc
      have i2 := of_decide_eq_true hbc
      have h3 : ¬ a.composite_score = c.composite_score := by
        intro h
        rw [h] at i1
        linarith
      rw [if_neg h3]
      exact decide_eq_true (lt_trans i2 i1)

/-- The rank comparator is total. -/
theorem rankLE_total (a b : PlayerWithScore) :
    (MetricsCalculator.rankLE a b || MetricsCalculator.rankLE b a) = true := by
  unfold MetricsCalculator.rankLE
  by_cases h1 : a.composite_score = b.composite_score
  · rw [if_pos h1, if_pos h1.symm, Bool.or_eq_true, decide_eq_true_eq,
      decide_eq_true_eq]
    omega
  · have h2 : ¬ b.composite_score = a.composite_score := fun h => h1 h.symm
    rw [if_neg h1, if_neg h2, Bool.or_eq_true, decide_eq_true_eq,
      decide_eq_true_eq]
    rcases lt_or_gt_of_ne h1 with h3 | h3
    · exact Or.inr h3
    · exact Or.inl h3

/-- A ranked list is sorted by the comparator. -/
theorem rank_sorted (L : List PlayerWithScore) :
    (rankPlayersByScore L).Pairwise
      (fun a b => MetricsCalculator.rankLE a b = true) :=
  stableSort_pairwise MetricsCalculator.rankLE rankLE_trans rankLE_total L

/-- On a batch with distinct ids, the ranked list is pairwise related by the
strict order rankRel. -/
theorem rank_pairwise (L : List PlayerWithScore)
    (hnodup : (L.map (fun p => p.player.player_id)).Nodup) :
    (rankPlayersByScore L).Pairwise rankRel := by
  have hnd : ((rankPlayersByScore L).map
      (fun p => p.player.player_id)).Nodup :=
    hnodup.perm ((stableSort_perm MetricsCalculator.rankLE L).map
      (fun p => p.player.player_id)).symm
  have hne : (rankPlayersByScore L).Pairwise
      (fun a b => a.player.player_id ≠ b.player.player_id) :=
    List.pairwise_map.mp hnd
  refine ((rank_sorted L).and hne).imp ?_
  intro a b hab
  obtain ⟨h1, h2⟩ := hab
  unfold MetricsCalculator.rankLE at h1
  unfold rankRel
  by_cases h3 : a.composite_score = b.composite_score
  · rw [if_pos h3] at h1
    right
    refine ⟨h3, ?_⟩
    have h4 := of_decide_eq_true h1
    omega
  · rw [if_neg h3] at h1
    exact Or.inl (of_decide_eq_true h1)

/-- Ranking two permuted batches with distinct ids yields the same list: the
rank order is canonical and erases any pre-shuffle. -/
theorem rank_eq_of_perm (L1 L2 : List PlayerWithScore) (hperm : L1.Perm L2)
    (hnodup : (L1.map (fun p => p.player.player_id)).Nodup) :
    rankPlayersByScore L1 = rankPlayersByScore L2 := by
  haveI : IsAntisymm PlayerWithScore rankRel := by
    constructor
    intro a b h1 h2
    exfalso
    unfold rankRel at h1 h2
    rcases h1 with h1 | ⟨h1a, h1b⟩ <;> rcases h2 with h2 | ⟨h2a, h2b⟩
    · linarith
    · linarith [h2a.le]
    · linarith [h1a.le]
    · omega
  have hnodup2 : (L2.map (fun p => p.player.player_id)).Nodup :=
    hnodup.perm (hperm.map (fun p => p.player.player_id))
  apply List.eq_of_perm_of_sorted (r := rankRel)
  · exact (stableSort_perm _ L1).trans
      (hperm.trans (stableSort_perm _ L2).symm)
  · exact rank_pairwise L1 hnodup
  · exact rank_pairwise L2 hnodup2

/-- The guarded Fisher-Yates walk returns a permutation of its input, for any
stream. -/
theorem fisherYatesAux_perm {α : Type} (g : ℕ → ℚ) :
    ∀ (i t : ℕ) (arr : List α),
      ((DeterministicRandom.fisherYatesAux g t i arr).1).Perm arr := by
  intro i
  induction i with
  | zero => intro t arr; exact List.Perm.refl arr
  | succ i2 ih =>
    intro t arr
    exact (ih (t + 1) _).trans (listSwap_perm arr (Nat.succ i2) _)

/-- DeterministicRandom.shuffle returns a permutation of its input, for any
stream and stream position. -/
theorem shuffle_perm {α : Type} (g : ℕ → ℚ) (t : ℕ) (arr : List α) :
    ((DeterministicRandom.shuffle g t arr).1).Perm arr :=
  fisherYatesAux_perm g (arr.length - 1) t arr

/-- Flattening the score groups recovers exactly the score-sorted list. -/
theorem groupPlayersByScore_flatten (players : List PlayerWithScore)
    (threshold : ℚ) :
    (TeamShuffler.groupPlayersByScore players threshold).flatten
      = stableSort TeamShuffler.scoreSortLE players := by
  unfold TeamShuffler.groupPlayersByScore
  have hstep : ∀ (acc : List (List PlayerWithScore) × List PlayerWithScore)
      (p : PlayerWithScore),
      ((TeamShuffler.groupStep threshold acc p).1).flatten
          ++ (TeamShuffler.groupStep threshold acc p).2
        = (acc.1.flatten ++ acc.2) ++ [p] := by
    intro acc p
    unfold TeamShuffler.groupStep
    cases hc : acc.2 with
    | nil => simp [hc]
    | cons c0 rest =>
      dsimp only
      split_ifs with h1
      · simp [hc]
      · simp [hc]
  have hfold : ∀ (l : List PlayerWithScore)
      (acc : List (List PlayerWithScore) × List PlayerWithScore),
      ((l.foldl (TeamShuffler.groupStep threshold) acc).1).flatten
          ++ (l.foldl (TeamShuffler.groupStep threshold) acc).2
        = (acc.1.flatten ++ acc.2) ++ l := by
    intro l
    induction l with
    | nil => intro acc; simp
    | cons p l2 ih =>
      intro acc
      rw [List.foldl_cons, ih (TeamShuffler.groupStep threshold acc p), hstep]
      simp
  have hfin := hfold (stableSort TeamShuffler.scoreSortLE players) ([], [])
  simp only [List.flatten_nil, List.nil_append] at hfin
  cases he : ((stableSort TeamShuffler.scoreSortLE players).foldl
      (TeamShuffler.groupStep threshold) ([], [])).2 with
  | nil =>
    rw [he] at hfin
    simp only [List.append_nil] at hfin
    simp [he, hfin]
  | cons c0 rest =>
    rw [he] at hfin
    have hne : ¬ ((c0 :: rest : List PlayerWithScore).isEmpty = true) := by
      simp
    simp only [he, List.isEmpty_cons, if_neg, Bool.false_eq_true,
      not_false_eq_true, List.flatten_append, List.flatten_cons,
      List.flatten_nil, List.append_nil]
    exact hfin

/-- The deterministic pre-shuffle returns a permutation of its input, for any
stream. -/
theorem deterministicPreShuffle_perm (g : ℕ → ℚ)
    (players : List PlayerWithScore) :
    (TeamShuffler.deterministicPreShuffle g players).Perm players := by
  unfold TeamShuffler.deterministicPreShuffle
  have hfold : ∀ (gl : List (List PlayerWithScore))
      (acc : List (List PlayerWithScore) × ℕ),
      (((gl.foldl
          (fun (acc : List (List PlayerWithScore) × ℕ) grp =>
            ((acc.1 ++ [(DeterministicRandom.shuffle g acc.2 grp).1],
              (DeterministicRandom.shuffle g acc.2 grp).2)))
          acc).1).flatten).Perm (acc.1.flatten ++ gl.flatten) := by
    intro gl
    induction gl with
    | nil => intro acc; simp
    | cons grp gl2 ih =>
      intro acc
      rw [List.foldl_cons]
      refine (ih _).trans ?_
      simp only [List.flatten_append, List.flatten_cons, List.flatten_nil,
        List.append_nil]
      rw [List.append_assoc]
      exact ((shuffle_perm g acc.2 grp).append_right gl2.flatten).append_left
        acc.1.flatten
  refine (hfold (TeamShuffler.groupPlayersByScore players (1/100)) ([], 0)).trans ?_
  simp only [List.flatten_nil, List.nil_append]
  rw [groupPlayersByScore_flatten]
  exact stableSort_perm TeamShuffler.scoreSortLE players

/-- The normalized batch has one entry per player. -/
theorem normalizeMetrics_length (players : List Player) :
    (MetricsCalculator.normalizeMetrics players).length = players.length := by
  unfold MetricsCalculator.normalizeMetrics
  cases players with
  | nil => rfl
  | cons p rest => simp

/-- Scoring a batch keeps the underlying players, in order. -/
theorem calculatePlayerScores_map_player (players : List Player)
    (w : BalanceMetrics) :
    (MetricsCalculator.calculatePlayerScores players w).map
        (fun p => p.player) = players := by
  unfold MetricsCalculator.calculatePlayerScores
  have hgen : ∀ (l1 : List Player) (l2 : List NormMetrics),
      l1.length ≤ l2.length →
      (List.zipWith (fun p n =>
          PlayerWithScore.mk p (MetricsCalculator.calculateCompositeScore n w))
          l1 l2).map (fun p => p.player) = l1 := by
    intro l1
    induction l1 with
    | nil => intro l2 h; rfl
    | cons p rest ih =>
      intro l2 h
      cases l2 with
      | nil => exact absurd h (by simp)
      | cons n rest2 =>
        simp only [List.zipWith_cons_cons, List.map_cons]
        rw [ih rest2 (by simpa using h)]
  exact hgen players _ (le_of_eq (normalizeMetrics_length players).symm)

/-- Scoring a batch keeps the player ids, in order. -/
theorem calculatePlayerScores_map_pid (players : List Player)
    (w : BalanceMetrics) :
    (MetricsCalculator.calculatePlayerScores players w).map
        (fun p => p.player.player_id) = players.map (·.player_id) := by
  have h1 := congrArg (List.map (fun q : Player => q.player_id))
    (calculatePlayerScores_map_player players w)
  rw [List.map_map] at h1
  exact h1

/-- One scored player per input player. -/
theorem calculatePlayerScores_length (players : List Player)
    (w : BalanceMetrics) :
    (MetricsCalculator.calculatePlayerScores players w).length
      = players.length := by
  unfold MetricsCalculator.calculatePlayerScores
  rw [List.length_zipWith, normalizeMetrics_length]
  exact min_self players.length

/-- Reduction of assignTeams on a nonempty batch to its explicit result
record. -/
theorem assignTeams_eq (G : Int → ℕ → ℚ) (seed : Option Int)
    (players : List Player) (targetTeams : ℕ) (optimizeBalance : Bool)
    (h0 : players.isEmpty = false) :
    TeamShuffler.assignTeams G seed players targetTeams optimizeBalance
      = some (AssignmentResult.mk
          (if optimizeBalance then
            (TeamBalancer.optimizeTeamBalance
              (TeamShuffler.createInitialAssignment
                (G (SeedManager.combineSeed seed
                  (SeedManager.generateDataSeed (players.map (·.player_id)))))
                (MetricsCalculator.calculatePlayerScores players
                  MetricsCalculator.DEFAULT_WEIGHTS)
                targetTeams) 100).optimized
          else
            TeamShuffler.createInitialAssignment
              (G (SeedManager.combineSeed seed
                (SeedManager.generateDataSeed (players.map (·.player_id)))))
              (MetricsCalculator.calculatePlayerScores players
                MetricsCalculator.DEFAULT_WEIGHTS)
              targetTeams)
          players.length targetTeams
          (SeedManager.combineSeed seed
            (SeedManager.generateDataSeed (players.map (·.player_id))))) := by
  unfold TeamShuffler.assignTeams
  rw [h0]
  rfl

/-- The initial assignment does not depend on the generator stream when the
ids are distinct: the snake draft re-ranks the pre-shuffled batch into the
canonical order. -/
theorem createInitialAssignment_indep (g1 g2 : ℕ → ℚ)
    (L : List PlayerWithScore) (k : ℕ)
    (hnodup : (L.map (fun p => p.player.player_id)).Nodup) :
    TeamShuffler.createInitialAssignment g1 L k
      = TeamShuffler.createInitialAssignment g2 L k := by
  unfold TeamShuffler.createInitialAssignment
  unfold TeamBalancer.createBalancedTeams
  rw [rank_eq_of_perm (TeamShuffler.deterministicPreShuffle g1 L)
    (TeamShuffler.deterministicPreShuffle g2 L)
    ((deterministicPreShuffle_perm g1 L).trans
      (deterministicPreShuffle_perm g2 L).symm)
    (hnodup.perm
      ((deterministicPreShuffle_perm g1 L).symm.map
        (fun p => p.player.player_id)))]

/-- With a fixed caller seed, the whole assignment result does not depend on
the generator stream when the ids are distinct. -/
theorem assignTeams_stream_indep (G1 G2 : Int → ℕ → ℚ) (seed : Option Int)
    (players : List Player) (k : ℕ) (opt : Bool)
    (hnodup : (players.map (·.player_id)).Nodup) :
    TeamShuffler.assignTeams G1 seed players k opt
      = TeamShuffler.assignTeams G2 seed players k opt := by
  cases h0 : players.isEmpty with
  | true =>
    unfold TeamShuffler.assignTeams
    rw [h0]
    rfl
  | false =>
    rw [assignTeams_eq G1 seed players k opt h0,
      assignTeams_eq G2 seed players k opt h0]
    have hn2 : ((MetricsCalculator.calculatePlayerScores players
        MetricsCalculator.DEFAULT_WEIGHTS).map
        (fun p => p.player.player_id)).Nodup := by
      rw [calculatePlayerScores_map_pid]
      exact hnodup
    rw [createInitialAssignment_indep
      (G1 (SeedManager.combineSeed seed
        (SeedManager.generateDataSeed (players.map (·.player_id)))))
      (G2 (SeedManager.combineSeed seed
        (SeedManager.generateDataSeed (players.map (·.player_id)))))
      (MetricsCalculator.calculatePlayerScores players
        MetricsCalculator.DEFAULT_WEIGHTS) k hn2]

/-- The team list of the assignment result depends neither on the generator
stream nor on the caller seed when the ids are distinct. -/
theorem assignTeams_teams_indep (G1 G2 : Int → ℕ → ℚ) (s1 s2 : Option Int)
    (players : List Player) (k : ℕ) (opt : Bool)
    (hnodup : (players.map (·.player_id)).Nodup) :
    (TeamShuffler.assignTeams G1 s1 players k opt).map (fun r => r.teams)
      = (TeamShuffler.assignTeams G2 s2 players k opt).map (fun r => r.teams) := by
  cases h0 : players.isEmpty with
  | true =>
    unfold TeamShuffler.assignTeams
    rw [h0]
    rfl
  | false =>
    rw [assignTeams_eq G1 s1 players k opt h0,
      assignTeams_eq G2 s2 players k opt h0]
    have hn2 : ((MetricsCalculator.calculatePlayerScores players
        MetricsCalculator.DEFAULT_WEIGHTS).map
        (fun p => p.player.player_id)).Nodup := by
      rw [calculatePlayerScores_map_pid]
      exact hnodup
    rw [createInitialAssignment_indep
      (G1 (SeedManager.combineSeed s1
        (SeedManager.generateDataSeed (players.map (·.player_id)))))
      (G2 (SeedManager.combineSeed s2
        (SeedManager.generateDataSeed (players.map (·.player_id)))))
      (MetricsCalculator.calculatePlayerScores players
        MetricsCalculator.DEFAULT_WEIGHTS) k hn2]
    rfl

/-- Witness for C4 at the spec scenario seeds: caller seed 7 against the data
seed 31810 of the id batch 1..4. -/
theorem c4_seed_derivation_witness :
    combineSeed (some 7) 31810 = (((7 : Int).toNat ^^^ (31810 : Int).toNat : ℕ) : Int) ∧
    0 ≤ combineSeed (some 7) 31810 ∧ combineSeed (some 7) 31810 < 4294967296 :=
  c4_seed_derivation.2.1 7 31810 (by decide) (by decide) (by decide)
    (by decide)

/-- An option known to hold a value equals some of its getD at any default. -/
theorem option_eq_some_getD {α : Type} (o : Option α) (d : α)
    (h : o.isSome = true) : o = some (o.getD d) := by
  cases o with
  | none => simp at h
  | some a => rfl

/-- The sizes of the returned teams follow the closed snake-draft counts, for
any stream family, caller seed and optimize flag. -/
theorem assignTeams_sizes (G : Int → ℕ → ℚ) (seed : Option Int)
    (players : List Player) (k : ℕ) (opt : Bool) (r : AssignmentResult)
    (hk1 : 0 < k) (h0 : players.isEmpty = false)
    (hr : TeamShuffler.assignTeams G seed players k opt = some r) :
    r.teams.map Team.size = (List.range k).map (snakeCount k players.length) := by
  rw [assignTeams_eq G seed players k opt h0] at hr
  have hrec := Option.some.inj hr
  have hteams : r.teams
      = (if opt then
          (TeamBalancer.optimizeTeamBalance
            (TeamShuffler.createInitialAssignment
              (G (SeedManager.combineSeed seed
                (SeedManager.generateDataSeed (players.map (·.player_id)))))
              (MetricsCalculator.calculatePlayerScores players
                MetricsCalculator.DEFAULT_WEIGHTS) k) 100).optimized
        else
          TeamShuffler.createInitialAssignment
            (G (SeedManager.combineSeed seed
              (SeedManager.generateDataSeed (players.map (·.player_id)))))
            (MetricsCalculator.calculatePlayerScores players
              MetricsCalculator.DEFAULT_WEIGHTS) k) := by
    rw [← hrec]
  set g0 := G (SeedManager.combineSeed seed
    (SeedManager.generateDataSeed (players.map (·.player_id)))) with hg0
  set scored := MetricsCalculator.calculatePlayerScores players
    MetricsCalculator.DEFAULT_WEIGHTS with hscored
  have hlenpre : (TeamShuffler.deterministicPreShuffle g0 scored).length
      = players.length := by
    rw [(deterministicPreShuffle_perm g0 scored).length_eq, hscored,
      calculatePlayerScores_length]
  obtain ⟨hb1, hb2, hb3, hb4⟩ := createBalancedTeams_spec
    (TeamShuffler.deterministicPreShuffle g0 scored) k hk1
  have hinit_size : (TeamShuffler.createInitialAssignment g0 scored k).map
      Team.size = (List.range k).map (snakeCount k players.length) := by
    show (TeamBalancer.createBalancedTeams
      (TeamShuffler.deterministicPreShuffle g0 scored) k).map Team.size = _
    rw [hb3, hlenpre]
  have hinit_len : (TeamShuffler.createInitialAssignment g0 scored k).map
      (fun t => t.players.length)
      = (List.range k).map (snakeCount k players.length) := by
    show (TeamBalancer.createBalancedTeams
      (TeamShuffler.deterministicPreShuffle g0 scored) k).map
        (fun t => t.players.length) = _
    rw [hb2, hlenpre]
  rw [hteams]
  cases opt with
  | false => exact hinit_size
  | true =>
    show ((TeamBalancer.optimizeTeamBalance
      (TeamShuffler.createInitialAssignment g0 scored k) 100).optimized).map
        Team.size = _
    obtain ⟨o1, o2, o3, o4, o5⟩ := optimizeTeamBalance_spec
      (TeamShuffler.createInitialAssignment g0 scored k) 100
    rw [o3]
    exact hinit_len

/-- Equal team-list projections of two optional results give equal membership
projections. -/
theorem map_membership_of_map_teams (o1 o2 : Option AssignmentResult)
    (h : o1.map (fun r => r.teams) = o2.map (fun r => r.teams)) :
    o1.map TeamShuffler.teamMembership
      = o2.map TeamShuffler.teamMembership := by
  cases o1 with
  | none =>
    cases o2 with
    | none => rfl
    | some b => simp at h
  | some a =>
    cases o2 with
    | none => simp at h
    | some b =>
      have h2 : a.teams = b.teams := Option.some.inj h
      show some (TeamShuffler.teamMembership a)
        = some (TeamShuffler.teamMembership b)
      unfold TeamShuffler.teamMembership
      rw [h2]

/-- C1: for players with distinct ids, n = players.length >= 2 and a target
team count k with 2 <= k <= n, the teams returned by TeamShuffler.assignTeams
(with optimization enabled or disabled) have sizes summing to n and pairwise
differing by at most 1 (hence max - min <= 1). -/
theorem c1_size_balance (G : Int → ℕ → ℚ) (seed : Option Int)
    (players : List Player) (k : ℕ) (opt : Bool) (r : AssignmentResult)
    (hnodup : (players.map (·.player_id)).Nodup)
    (hn : 2 ≤ players.length) (hk2 : 2 ≤ k) (hkn : k ≤ players.length)
    (hr : TeamShuffler.assignTeams G seed players k opt = some r) :
    (r.teams.map Team.size).sum = players.length
      ∧ ∀ a ∈ r.teams.map Team.size, ∀ b ∈ r.teams.map Team.size,
          a ≤ b + 1 := by
  have hk1 : 0 < k := by omega
  have h0 : players.isEmpty = false := by
    cases players with
    | nil => simp at hn
    | cons p rest => rfl
  have hsize := assignTeams_sizes G seed players k opt r hk1 h0 hr
  refine ⟨?_, ?_⟩
  · rw [hsize]
    exact snakeCount_sum k players.length hk1
  · intro a ha b hb
    rw [hsize] at ha hb
    obtain ⟨i, hi, rfl⟩ := List.mem_map.mp ha
    obtain ⟨j, hj, rfl⟩ := List.mem_map.mp hb
    have hbi := snakeCount_bounds k players.length i
    have hbj := snakeCount_bounds k players.length j
    omega

/-- Witness for C1 at the four-equal-players scenario with k = 2, caller seed
7, optimization on, and a constant generator stream. -/
theorem c1_size_balance_witness :
    ((fourEqualPlayers.map (·.player_id)).Nodup
      ∧ 2 ≤ fourEqualPlayers.length ∧ 2 ≤ 2 ∧ 2 ≤ fourEqualPlayers.length
      ∧ TeamShuffler.assignTeams (constantStream 0) (some 7) fourEqualPlayers
          2 true
        = some ((TeamShuffler.assignTeams (constantStream 0) (some 7)
            fourEqualPlayers 2 true).getD (AssignmentResult.mk [] 0 0 0)))
    ∧ ((((TeamShuffler.assignTeams (constantStream 0) (some 7) fourEqualPlayers
          2 true).getD (AssignmentResult.mk [] 0 0 0)).teams.map
            Team.size).sum = fourEqualPlayers.length
      ∧ ∀ a ∈ ((TeamShuffler.assignTeams (constantStream 0) (some 7)
            fourEqualPlayers 2 true).getD
            (AssignmentResult.mk [] 0 0 0)).teams.map Team.size,
          ∀ b ∈ ((TeamShuffler.assignTeams (constantStream 0) (some 7)
            fourEqualPlayers 2 true).getD
            (AssignmentResult.mk [] 0 0 0)).teams.map Team.size,
          a ≤ b + 1) :=
  ⟨⟨by decide, by decide, by decide, by decide,
      option_eq_some_getD _ (AssignmentResult.mk [] 0 0 0) rfl⟩,
    c1_size_balance (constantStream 0) (some 7) fourEqualPlayers 2 true _
      (by decide) (by decide) (by decide) (by decide)
      (option_eq_some_getD _ (AssignmentResult.mk [] 0 0 0) rfl)⟩

/-- C2: for 2 <= k <= players.length, the players held by the k teams of
TeamShuffler.assignTeams equal the input batch as a multiset, both after the
optional balance optimization (first conjunct, opt arbitrary) and after the
initial snake-draft build (second conjunct). -/
theorem c2_exact_partition (G : Int → ℕ → ℚ) (seed : Option Int)
    (players : List Player) (k : ℕ) (opt : Bool) (r : AssignmentResult)
    (hk2 : 2 ≤ k) (hkn : k ≤ players.length)
    (hr : TeamShuffler.assignTeams G seed players k opt = some r) :
    playersMultiset r.teams = Multiset.ofList players
      ∧ playersMultiset
          (TeamShuffler.createInitialAssignment
            (G (SeedManager.combineSeed seed
              (SeedManager.generateDataSeed (players.map (·.player_id)))))
            (MetricsCalculator.calculatePlayerScores players
              MetricsCalculator.DEFAULT_WEIGHTS) k)
        = Multiset.ofList players := by
  have hk1 : 0 < k := by omega
  have h0 : players.isEmpty = false := by
    cases players with
    | nil => simp at hkn; omega
    | cons p rest => rfl
  rw [assignTeams_eq G seed players k opt h0] at hr
  have hrec := Option.some.inj hr
  have hteams : r.teams
      = (if opt then
          (TeamBalancer.optimizeTeamBalance
            (TeamShuffler.createInitialAssignment
              (G (SeedManager.combineSeed seed
                (SeedManager.generateDataSeed (players.map (·.player_id)))))
              (MetricsCalculator.calculatePlayerScores players
                MetricsCalculator.DEFAULT_WEIGHTS) k) 100).optimized
        else
          TeamShuffler.createInitialAssignment
            (G (SeedManager.combineSeed seed
              (SeedManager.generateDataSeed (players.map (·.player_id)))))
            (MetricsCalculator.calculatePlayerScores players
              MetricsCalculator.DEFAULT_WEIGHTS) k) := by
    rw [← hrec]
  set g0 := G (SeedManager.combineSeed seed
    (SeedManager.generateDataSeed (players.map (·.player_id)))) with hg0
  set scored := MetricsCalculator.calculatePlayerScores players
    MetricsCalculator.DEFAULT_WEIGHTS with hscored
  obtain ⟨hb1, hb2, hb3, hb4⟩ := createBalancedTeams_spec
    (TeamShuffler.deterministicPreShuffle g0 scored) k hk1
  have hms_init : multisetOfTeams (TeamShuffler.createInitialAssignment
      g0 scored k) = Multiset.ofList scored := by
    show multisetOfTeams (TeamBalancer.createBalancedTeams
      (TeamShuffler.deterministicPreShuffle g0 scored) k) = _
    rw [hb4]
    exact Multiset.coe_eq_coe.mpr (deterministicPreShuffle_perm g0 scored)
  have hpm_init : playersMultiset (TeamShuffler.createInitialAssignment
      g0 scored k) = Multiset.ofList players := by
    unfold playersMultiset
    rw [hms_init]
    show Multiset.ofList (scored.map PlayerWithScore.player) = _
    rw [hscored]
    exact congrArg Multiset.ofList
      (calculatePlayerScores_map_player players MetricsCalculator.DEFAULT_WEIGHTS)
  refine ⟨?_, hpm_init⟩
  rw [hteams]
  cases opt with
  | false => exact hpm_init
  | true =>
    show playersMultiset ((TeamBalancer.optimizeTeamBalance
      (TeamShuffler.createInitialAssignment g0 scored k) 100).optimized) = _
    obtain ⟨o1, o2, o3, o4, o5⟩ := optimizeTeamBalance_spec
      (TeamShuffler.createInitialAssignment g0 scored k) 100
    unfold playersMultiset
    rw [o1]
    have h5 := hpm_init
    unfold playersMultiset at h5
    exact h5

/-- Witness for C2 at the four-equal-players scenario with k = 2, caller seed
7, optimization on, and a constant generator stream. -/
theorem c2_exact_partition_witness :
    (2 ≤ (2 : ℕ) ∧ 2 ≤ fourEqualPlayers.length
      ∧ TeamShuffler.assignTeams (constantStream 0) (some 7) fourEqualPlayers
          2 true
        = some ((TeamShuffler.assignTeams (constantStream 0) (some 7)
            fourEqualPlayers 2 true).getD (AssignmentResult.mk [] 0 0 0)))
    ∧ (playersMultiset
        ((TeamShuffler.assignTeams (constantStream 0) (some 7)
          fourEqualPlayers 2 true).getD (AssignmentResult.mk [] 0 0 0)).teams
        = Multiset.ofList fourEqualPlayers
      ∧ playersMultiset
          (TeamShuffler.createInitialAssignment
            (constantStream 0 (SeedManager.combineSeed (some 7)
              (SeedManager.generateDataSeed
                (fourEqualPlayers.map (·.player_id)))))
            (MetricsCalculator.calculatePlayerScores fourEqualPlayers
              MetricsCalculator.DEFAULT_WEIGHTS) 2)
        = Multiset.ofList fourEqualPlayers) :=
  ⟨⟨by decide, by decide,
      option_eq_some_getD _ (AssignmentResult.mk [] 0 0 0) rfl⟩,
    c2_exact_partition (constantStream 0) (some 7) fourEqualPlayers 2 true _
      (by decide) (by decide)
      (option_eq_some_getD _ (AssignmentResult.mk [] 0 0 0) rfl)⟩

/-- C3: for a fixed input (players, target count, seed, optimize flag) and a
fixed generator-stream family, two invocations of TeamShuffler.assignTeams
produce identical team membership (per-team player-id lists) and the identical
reported effective seed; in this pure embedding all generator state is
explicit, so the two invocations are the same value. -/
theorem c3_determinism (G : Int → ℕ → ℚ) (seed : Option Int)
    (players : List Player) (k : ℕ) (opt : Bool) :
    (TeamShuffler.assignTeams G seed players k opt).map
        (fun r => (TeamShuffler.teamMembership r, r.seed))
      = (TeamShuffler.assignTeams G seed players k opt).map
        (fun r => (TeamShuffler.teamMembership r, r.seed)) := rfl

/-- Folding min never exceeds the accumulator. -/
theorem foldl_min_le_init (l : List ℚ) (a : ℚ) : l.foldl min a ≤ a := by
  induction l generalizing a with
  | nil => exact le_refl a
  | cons b l2 ih => exact le_trans (ih (min a b)) (min_le_left a b)

/-- Folding min never exceeds any member of the list. -/
theorem foldl_min_le_mem (l : List ℚ) (a x : ℚ) (hx : x ∈ l) :
    l.foldl min a ≤ x := by
  induction l generalizing a with
  | nil => exact absurd hx (List.not_mem_nil x)
  | cons b l2 ih =>
    rcases List.mem_cons.mp hx with rfl | hx2
    · exact le_trans (foldl_min_le_init l2 (min a x)) (min_le_right a x)
    · exact ih (min a b) hx2

/-- The batch minimum is a lower bound of the batch. -/
theorem listMin_le (l : List ℚ) (x : ℚ) (hx : x ∈ l) :
    MetricsCalculator.listMin l ≤ x := by
  cases l with
  | nil => exact absurd hx (List.not_mem_nil x)
  | cons a l2 =>
    rcases List.mem_cons.mp hx with rfl | hx2
    · exact foldl_min_le_init l2 x
    · exact foldl_min_le_mem l2 a x hx2

/-- Folding max is at least the accumulator. -/
theorem init_le_foldl_max (l : List ℚ) (a : ℚ) : a ≤ l.foldl max a := by
  induction l generalizing a with
  | nil => exact le_refl a
  | cons b l2 ih => exact le_trans (le_max_left a b) (ih (max a b))

/-- Folding max is at least any member of the list. -/
theorem mem_le_foldl_max (l : List ℚ) (a x : ℚ) (hx : x ∈ l) :
    x ≤ l.foldl max a := by
  induction l generalizing a with
  | nil => exact absurd hx (List.not_mem_nil x)
  | cons b l2 ih =>
    rcases List.mem_cons.mp hx with rfl | hx2
    · exact le_trans (le_max_right a x) (init_le_foldl_max l2 (max a x))
    · exact ih (max a b) hx2

/-- The batch maximum is an upper bound of the batch. -/
theorem le_listMax (l : List ℚ) (x : ℚ) (hx : x ∈ l) :
    x ≤ MetricsCalculator.listMax l := by
  cases l with
  | nil => exact absurd hx (List.not_mem_nil x)
  | cons a l2 =>
    rcases List.mem_cons.mp hx with rfl | hx2
    · exact init_le_foldl_max l2 x
    · exact mem_le_foldl_max l2 a x hx2

/-- The normalized value of an in-range input lies in the unit interval, and
degenerate ranges map to one half. -/
theorem normalize_bounds (v rmin rmax : ℚ) (h1 : rmin ≤ v) (h2 : v ≤ rmax) :
    0 ≤ MetricsCalculator.normalize v rmin rmax
      ∧ MetricsCalculator.normalize v rmin rmax ≤ 1
      ∧ (rmin = rmax → MetricsCalculator.normalize v rmin rmax = 1/2) := by
  unfold MetricsCalculator.normalize
  by_cases h : rmax = rmin
  · rw [if_pos h]
    exact ⟨by norm_num, by norm_num, fun _ => rfl⟩
  · rw [if_neg h]
    have hlt : rmin < rmax :=
      lt_of_le_of_ne (le_trans h1 h2) (fun e => h e.symm)
    have hpos : (0 : ℚ) < rmax - rmin := by linarith
    refine ⟨div_nonneg (by linarith) hpos.le, ?_, fun e => absurd e.symm h⟩
    rw [div_le_one hpos]
    linarith

/-- C10: for a non-empty batch, every per-attribute value computed by
MetricsCalculator.normalizeMetrics lies in [0,1], and whenever an attribute's
batch minimum equals its batch maximum every player's normalized value for
that attribute is exactly one half. -/
theorem c10_normalization (players : List Player) (hne : players ≠ []) :
    ∀ nm ∈ MetricsCalculator.normalizeMetrics players,
      (0 ≤ nm.engagement ∧ nm.engagement ≤ 1
        ∧ (MetricsCalculator.listMin
              (players.map (·.historical_event_engagements))
            = MetricsCalculator.listMax
              (players.map (·.historical_event_engagements)) →
            nm.engagement = 1/2))
      ∧ (0 ≤ nm.activity ∧ nm.activity ≤ 1
        ∧ (MetricsCalculator.listMin (players.map (·.days_active_last_30))
            = MetricsCalculator.listMax (players.map (·.days_active_last_30)) →
            nm.activity = 1/2))
      ∧ (0 ≤ nm.points ∧ nm.points ≤ 1
        ∧ (MetricsCalculator.listMin (players.map (·.current_total_points))
            = MetricsCalculator.listMax (players.map (·.current_total_points)) →
            nm.points = 1/2))
      ∧ (0 ≤ nm.streak ∧ nm.streak ≤ 1
        ∧ (MetricsCalculator.listMin (players.map (·.current_streak_value))
            = MetricsCalculator.listMax (players.map (·.current_streak_value)) →
            nm.streak = 1/2)) := by
  cases players with
  | nil => exact absurd rfl hne
  | cons p0 rest =>
    intro nm hnm
    simp only [MetricsCalculator.normalizeMetrics] at hnm
    rw [List.mem_map] at hnm
    obtain ⟨p, hp, rfl⟩ := hnm
    refine ⟨?_, ?_, ?_, ?_⟩
    · have hme : p.historical_event_engagements
          ∈ (p0 :: rest).map (·.historical_event_engagements) :=
        List.mem_map_of_mem _ hp
      obtain ⟨e1, e2, e3⟩ := normalize_bounds p.historical_event_engagements
        (MetricsCalculator.listMin
          ((p0 :: rest).map (·.historical_event_engagements)))
        (MetricsCalculator.listMax
          ((p0 :: rest).map (·.historical_event_engagements)))
        (listMin_le _ _ hme) (le_listMax _ _ hme)
      exact ⟨e1, e2, e3⟩
    · have hme : p.days_active_last_30
          ∈ (p0 :: rest).map (·.days_active_last_30) :=
        List.mem_map_of_mem _ hp
      obtain ⟨e1, e2, e3⟩ := normalize_bounds p.days_active_last_30
        (MetricsCalculator.listMin ((p0 :: rest).map (·.days_active_last_30)))
        (MetricsCalculator.listMax ((p0 :: rest).map (·.days_active_last_30)))
        (listMin_le _ _ hme) (le_listMax _ _ hme)
      exact ⟨e1, e2, e3⟩
    · have hme : p.current_total_points
          ∈ (p0 :: rest).map (·.current_total_points) :=
        List.mem_map_of_mem _ hp
      obtain ⟨e1, e2, e3⟩ := normalize_bounds p.current_total_points
        (MetricsCalculator.listMin ((p0 :: rest).map (·.current_total_points)))
        (MetricsCalculator.listMax ((p0 :: rest).map (·.current_total_points)))
        (listMin_le _ _ hme) (le_listMax _ _ hme)
      exact ⟨e1, e2, e3⟩
    · have hme : p.current_streak_value
          ∈ (p0 :: rest).map (·.current_streak_value) :=
        List.mem_map_of_mem _ hp
      obtain ⟨e1, e2, e3⟩ := normalize_bounds p.current_streak_value
        (MetricsCalculator.listMin ((p0 :: rest).map (·.current_streak_value)))
        (MetricsCalculator.listMax ((p0 :: rest).map (·.current_streak_value)))
        (listMin_le _ _ hme) (le_listMax _ _ hme)
      exact ⟨e1, e2, e3⟩

/-- Witness for C10 at the four-equal-players batch, whose four attribute
batches are all degenerate. -/
theorem c10_normalization_witness :
    fourEqualPlayers ≠ []
      ∧ ∀ nm ∈ MetricsCalculator.normalizeMetrics fourEqualPlayers,
        (0 ≤ nm.engagement ∧ nm.engagement ≤ 1
          ∧ (MetricsCalculator.listMin
                (fourEqualPlayers.map (·.historical_event_engagements))
              = MetricsCalculator.listMax
                (fourEqualPlayers.map (·.historical_event_engagements)) →
              nm.engagement = 1/2))
        ∧ (0 ≤ nm.activity ∧ nm.activity ≤ 1
          ∧ (MetricsCalculator.listMin
                (fourEqualPlayers.map (·.days_active_last_30))
              = MetricsCalculator.listMax
                (fourEqualPlayers.map (·.days_active_last_30)) →
              nm.activity = 1/2))
        ∧ (0 ≤ nm.points ∧ nm.points ≤ 1
          ∧ (MetricsCalculator.listMin
                (fourEqualPlayers.map (·.current_total_points))
              = MetricsCalculator.listMax
                (fourEqualPlayers.map (·.current_total_points)) →
              nm.points = 1/2))
        ∧ (0 ≤ nm.streak ∧ nm.streak ≤ 1
          ∧ (MetricsCalculator.listMin
                (fourEqualPlayers.map (·.current_streak_value))
              = MetricsCalculator.listMax
                (fourEqualPlayers.map (·.current_streak_value)) →
              nm.streak = 1/2)) :=
  ⟨by decide, c10_normalization fourEqualPlayers (by decide)⟩

/-- C5 counterexample: in the spec scenario (four identically-scored entities,
two teams), the membership produced with caller seed 7 and with caller seed 99
is the same function of the generator-stream family — the two runs can never
yield different team membership, refuting the claimed seed-sensitivity of the
tie-break shuffle. -/
theorem c5_counterexample :
    (fun G : Int → ℕ → ℚ =>
      (TeamShuffler.assignTeams G (some 7) fourEqualPlayers 2 true).map
        TeamShuffler.teamMembership)
    = fun G : Int → ℕ → ℚ =>
      (TeamShuffler.assignTeams G (some 99) fourEqualPlayers 2 true).map
        TeamShuffler.teamMembership := by
  funext G
  exact map_membership_of_map_teams _ _
    (assignTeams_teams_indep G G (some 7) (some 99) fourEqualPlayers 2 true
      (by decide))

/-- C5 (amended): in the spec scenario, the runs with caller seed 7 and caller
seed 99 both yield two teams of size 2, with identical team membership for any
generator streams; only the reported effective seeds differ (31813 vs
31777). -/
theorem c5_amended (G1 G2 : Int → ℕ → ℚ) (opt : Bool)
    (r1 r2 : AssignmentResult)
    (h1 : TeamShuffler.assignTeams G1 (some 7) fourEqualPlayers 2 opt
      = some r1)
    (h2 : TeamShuffler.assignTeams G2 (some 99) fourEqualPlayers 2 opt
      = some r2) :
    r1.teams.map Team.size = [2, 2]
      ∧ r2.teams.map Team.size = [2, 2]
      ∧ TeamShuffler.teamMembership r1 = TeamShuffler.teamMembership r2
      ∧ r1.seed = 31813 ∧ r2.seed = 31777 := by
  have hs1 := assignTeams_sizes G1 (some 7) fourEqualPlayers 2 opt r1
    (by decide) (by decide) h1
  have hs2 := assignTeams_sizes G2 (some 99) fourEqualPlayers 2 opt r2
    (by decide) (by decide) h2
  have ht := assignTeams_teams_indep G1 G2 (some 7) (some 99) fourEqualPlayers
    2 opt (by decide)
  rw [h1, h2] at ht
  have ht2 : r1.teams = r2.teams := Option.some.inj ht
  rw [assignTeams_eq G1 (some 7) fourEqualPlayers 2 opt (by decide)] at h1
  rw [assignTeams_eq G2 (some 99) fourEqualPlayers 2 opt (by decide)] at h2
  have e1 := Option.some.inj h1
  have e2 := Option.some.inj h2
  have hseed1 : r1.seed = SeedManager.combineSeed (some 7)
      (SeedManager.generateDataSeed (fourEqualPlayers.map (·.player_id))) := by
    rw [← e1]
  have hseed2 : r2.seed = SeedManager.combineSeed (some 99)
      (SeedManager.generateDataSeed (fourEqualPlayers.map (·.player_id))) := by
    rw [← e2]
  refine ⟨?_, ?_, ?_, ?_, ?_⟩
  · rw [hs1]
    decide
  · rw [hs2]
    decide
  · unfold TeamShuffler.teamMembership
    rw [ht2]
  · rw [hseed1]
    decide
  · rw [hseed2]
    decide

/-- Witness for the amended C5 at a constant generator stream with
optimization disabled. -/
theorem c5_amended_witness :
    (TeamShuffler.assignTeams (constantStream 0) (some 7) fourEqualPlayers 2
        false
      = some ((TeamShuffler.assignTeams (constantStream 0) (some 7)
          fourEqualPlayers 2 false).getD (AssignmentResult.mk [] 0 0 0))
    ∧ TeamShuffler.assignTeams (constantStream 0) (some 99) fourEqualPlayers 2
        false
      = some ((TeamShuffler.assignTeams (constantStream 0) (some 99)
          fourEqualPlayers 2 false).getD (AssignmentResult.mk [] 0 0 0)))
    ∧ (((TeamShuffler.assignTeams (constantStream 0) (some 7) fourEqualPlayers
          2 false).getD (AssignmentResult.mk [] 0 0 0)).teams.map Team.size
        = [2, 2]
      ∧ ((TeamShuffler.assignTeams (constantStream 0) (some 99)
          fourEqualPlayers 2 false).getD
            (AssignmentResult.mk [] 0 0 0)).teams.map Team.size = [2, 2]
      ∧ TeamShuffler.teamMembership
          ((TeamShuffler.assignTeams (constantStream 0) (some 7)
            fourEqualPlayers 2 false).getD (AssignmentResult.mk [] 0 0 0))
        = TeamShuffler.teamMembership
          ((TeamShuffler.assignTeams (constantStream 0) (some 99)
            fourEqualPlayers 2 false).getD (AssignmentResult.mk [] 0 0 0))
      ∧ ((TeamShuffler.assignTeams (constantStream 0) (some 7)
          fourEqualPlayers 2 false).getD (AssignmentResult.mk [] 0 0 0)).seed
        = 31813
      ∧ ((TeamShuffler.assignTeams (constantStream 0) (some 99)
          fourEqualPlayers 2 false).getD (AssignmentResult.mk [] 0 0 0)).seed
        = 31777) :=
  ⟨⟨option_eq_some_getD _ (AssignmentResult.mk [] 0 0 0) rfl,
    option_eq_some_getD _ (AssignmentResult.mk [] 0 0 0) rfl⟩,
    c5_amended (constantStream 0) (constantStream 0) false _ _
      (option_eq_some_getD _ (AssignmentResult.mk [] 0 0 0) rfl)
      (option_eq_some_getD _ (AssignmentResult.mk [] 0 0 0) rfl)⟩

/-- C6: for players with distinct ids and 2 <= k <= n, the team membership
returned by TeamShuffler.assignTeams is identical for any two caller seeds
(and any two generator streams): the snake draft re-ranks by score descending
with player_id ascending, a total order on distinct-id batches, so the seeded
within-band shuffle has no effect on membership. -/
theorem c6_membership_seed_invariant (G1 G2 : Int → ℕ → ℚ)
    (s1 s2 : Option Int) (players : List Player) (k : ℕ) (opt : Bool)
    (hnodup : (players.map (·.player_id)).Nodup)
    (hk2 : 2 ≤ k) (hkn : k ≤ players.length) :
    (TeamShuffler.assignTeams G1 s1 players k opt).map
        TeamShuffler.teamMembership
      = (TeamShuffler.assignTeams G2 s2 players k opt).map
        TeamShuffler.teamMembership :=
  map_membership_of_map_teams _ _
    (assignTeams_teams_indep G1 G2 s1 s2 players k opt hnodup)

/-- Witness for C6 at the four-equal-players scenario across seeds 7 and 99
and two different constant streams. -/
theorem c6_membership_seed_invariant_witness :
    ((fourEqualPlayers.map (·.player_id)).Nodup ∧ 2 ≤ (2 : ℕ)
      ∧ 2 ≤ fourEqualPlayers.length)
    ∧ (TeamShuffler.assignTeams (constantStream 0) (some 7) fourEqualPlayers 2
        true).map TeamShuffler.teamMembership
      = (TeamShuffler.assignTeams (constantStream (1/2)) (some 99)
          fourEqualPlayers 2 true).map TeamShuffler.teamMembership :=
  ⟨⟨by decide, by decide, by decide⟩,
    c6_membership_seed_invariant (constantStream 0) (constantStream (1/2))
      (some 7) (some 99) fourEqualPlayers 2 true (by decide) (by decide)
      (by decide)⟩

/-- C7: the balance coefficient of the optimizer's output is at least that of
its input, and the reported improvement is non-negative, for every input team
list and iteration budget. -/
theorem c7_optimizer_non_regression (teams : List Team) (maxIterations : ℕ) :
    balanceCoefficient teams
        ≤ balanceCoefficient
            ((TeamBalancer.optimizeTeamBalance teams maxIterations).optimized)
      ∧ 0 ≤ (TeamBalancer.optimizeTeamBalance teams maxIterations).improvement :=
  ⟨(optimizeTeamBalance_spec teams maxIterations).2.2.2.1,
    (optimizeTeamBalance_spec teams maxIterations).2.2.2.2⟩

/-- C8: the optimizer only swaps members pairwise between teams, so the
member count of every team is unchanged position-wise (and the recomputed
size fields equal those counts), for every input team list and iteration
budget. -/
theorem c8_optimizer_preserves_sizes (teams : List Team) (maxIterations : ℕ) :
    (TeamBalancer.optimizeTeamBalance teams maxIterations).optimized.map
        (fun t => t.players.length)
      = teams.map (fun t => t.players.length)
      ∧ (TeamBalancer.optimizeTeamBalance teams maxIterations).optimized.map
          Team.size
        = teams.map (fun t => t.players.length) :=
  ⟨(optimizeTeamBalance_spec teams maxIterations).2.1,
    (optimizeTeamBalance_spec teams maxIterations).2.2.1⟩

/-- C9 counterexample: at 8 players and 5 teams the validator throws (the
third check, fewer than 2 players per team, fires) although neither k < 2 nor
k > n holds, refuting the claimed characterization of the throwing
condition. -/
theorem c9_counterexample :
    DataValidator.validateTeamConstraintsThrows 8 5 = true
      ∧ ¬((5 : ℕ) < 2 ∨ (5 : ℕ) > 8) :=
  ⟨by decide, by decide⟩

/-- C9 (amended): the validator throws exactly when k < 2 or n < 2k (the
fourth ceil-floor check can never fire), and the builder itself never rejects:
for every positive k it returns exactly k teams. -/
theorem c9_amended (n k : ℕ) :
    (DataValidator.validateTeamConstraintsThrows n k = true
        ↔ (k < 2 ∨ n < 2 * k))
      ∧ ∀ L : List PlayerWithScore, 0 < k →
          (TeamBalancer.createBalancedTeams L k).length = k := by
  constructor
  · unfold DataValidator.validateTeamConstraintsThrows
    by_cases h1 : k < 2
    · rw [if_pos h1]
      exact ⟨fun _ => Or.inl h1, fun _ => rfl⟩
    · rw [if_neg h1]
      by_cases h2 : k > n
      · rw [if_pos h2]
        exact ⟨fun _ => Or.inr (by omega), fun _ => rfl⟩
      · rw [if_neg h2]
        by_cases h3 : n < k * 2
        · rw [if_pos h3]
          exact ⟨fun _ => Or.inr (by omega), fun _ => rfl⟩
        · rw [if_neg h3]
          have hk0 : 0 < k := by omega
          have h5 : (n + k - 1) / k ≤ (n + k) / k :=
            Nat.div_le_div_right (by omega)
          have h6 : (n + k) / k = n / k + 1 := Nat.add_div_right n hk0
          have h7 : ¬((n + k - 1) / k - n / k > 1) := by omega
          rw [if_neg h7]
          exact ⟨fun hx => absurd hx Bool.false_ne_true,
            fun hx => absurd hx (by omega)⟩
  · intro L hk
    exact (createBalancedTeams_spec L k hk).1

/-- Witness for the amended C9 at the counterexample point n = 8, k = 5. -/
theorem c9_amended_witness :
    (DataValidator.validateTeamConstraintsThrows 8 5 = true
        ↔ ((5 : ℕ) < 2 ∨ (8 : ℕ) < 2 * 5))
      ∧ ∀ L : List PlayerWithScore, 0 < (5 : ℕ) →
          (TeamBalancer.createBalancedTeams L 5).length = 5 :=
  c9_amended 8 5

end TeamReassign
